import Mathlib

/-!
# Parallel Game of Life: the turn-stepping engine of `gol/distributor.go`

A shallow embedding of `worker`, `savePGM` and `distributor`, and the
properties of the rule, the row partition, the per-turn merge and the control
loop that are proved about them.

Conventions of the embedding.

* A grid (`[][]byte`) is a `List (List Nat)`; a byte is a `Nat` and the code
  only ever compares bytes with `0xFF` and writes `0x00` or `0xFF`.
* Sizes, loop counters and the turn counter are `Nat` (they are lengths of
  allocated slices or count up from 0); the neighbour coordinates, which add
  the offsets -1, 0, 1, are computed in `Int` with Go's truncated `%`. Go's
  `int` is 64 bits wide and the sums `x + dx + ImageWidth` stay far below
  `2^63` for any grid that can be allocated, so no wrap-around is modelled.
* A run-time panic of the Go code (index out of range, division by zero) is
  `none`.
* A `for i := 0; i < n; i++` loop is a monadic left fold over `List.range n`
  that passes the loop's variables as state.
* Channel traffic of the distributor goroutine is a list of `Out` actions in
  program order.  The worker goroutines of one turn run concurrently; the
  order in which their events reach the event sink is an input of the model
  (`Select.default order`).
-/

namespace gol

/-! ## Data model -/

abbrev Grid := List (List Nat)

/-- Modelled from the spec: `util.Cell`, declared outside `distributor.go`; a
position with fields `X` and `Y`, as the source uses it. -/
structure Cell where
  X : Nat
  Y : Nat
deriving DecidableEq, Repr

/-- Modelled from the spec: `Params`, declared outside `distributor.go`; the
four configuration fields the source reads. -/
structure Params where
  Turns : Nat
  Threads : Nat
  ImageWidth : Nat
  ImageHeight : Nat
deriving DecidableEq, Repr

/-- Modelled from the spec: the run states `Paused`, `Executing`, `Quitting`,
declared outside `distributor.go`. -/
inductive State where
  | Paused
  | Executing
  | Quitting
deriving DecidableEq, Repr

/-- Modelled from the spec: the event types sent on `c.events`, declared
outside `distributor.go`; the constructors and fields are those the source
builds. -/
inductive Event where
  | AliveCellsCount (CompletedTurns : Nat) (CellsCount : Nat)
  | ImageOutputComplete (CompletedTurns : Nat) (Filename : String)
  | StateChange (CompletedTurns : Nat) (NewState : State)
  | CellFlipped (CompletedTurns : Nat) (Cell : Cell)
  | CellsFlipped (CompletedTurns : Nat) (Cells : List Cell)
  | TurnComplete (CompletedTurns : Nat)
  | FinalTurnComplete (CompletedTurns : Nat) (Alive : List Cell)
deriving DecidableEq, Repr

/-- Modelled from the spec: the commands sent on `c.ioCommand`, declared
outside `distributor.go`. -/
inductive IoCommand where
  | ioOutput
  | ioInput
  | ioCheckIdle
deriving DecidableEq, Repr

/-- One action of the distributor goroutine on its channels, in program
order. -/
inductive Out where
  | event (e : Event)
  | command (c : IoCommand)
  | filename (f : String)
  | output (b : Nat)
  | idle
  | tickerStop
  | done
  | closeEvents
deriving DecidableEq, Repr

/-! ## Go primitives -/

/-- Go's `a % b` on `int`: truncated remainder, a panic when `b` is zero. -/
def goMod (a b : Int) : Option Int :=
  if b = 0 then none else some (a.tmod b)

/-- Go's `a / b` on non-negative `int`, a panic when `b` is zero. -/
def goDiv (a b : Nat) : Option Nat :=
  if b = 0 then none else some (a / b)

/-- Read `world[y][x]`; out of range is a panic. -/
def index (world : Grid) (y x : Nat) : Option Nat :=
  match world[y]? with
  | none => none
  | some row => row[x]?

/-- Read `world[ny][nx]` at `int` coordinates; a negative index is a panic. -/
def indexInt (world : Grid) (ny nx : Int) : Option Nat :=
  if ny < 0 ∨ nx < 0 then none else index world ny.toNat nx.toNat

/-- Assign `g[y][x] = v`; out of range is a panic. -/
def setCell (g : Grid) (y x v : Nat) : Option Grid :=
  match g[y]? with
  | none => none
  | some row => if x < row.length then some (g.set y (row.set x v)) else none

/-- Go's `copy(dst, src)`: the first `min (len dst) (len src)` elements of
`dst` are overwritten. -/
def goCopy (dst src : List Nat) : List Nat :=
  src.take dst.length ++ dst.drop src.length

/-- Allocate `make([][]byte, h)` with every row `make([]byte, w)`. -/
def makeGrid (h w : Nat) : Grid :=
  List.replicate h (List.replicate w 0)

/-! ## worker (lines 21-70) -/

/-- The values of `dy` and of `dx` in the loops of lines 33-34. -/
def offsets : List Int := [-1, 0, 1]

/-- Body of the innermost loop, lines 35-42. -/
def countNeighbour (p : Params) (world : Grid) (x globalY : Nat) (dy dx : Int)
    (sum : Nat) : Option Nat :=
  if dx = 0 ∧ dy = 0 then some sum
  else do
    let nx ← goMod ((x : Int) + dx + (p.ImageWidth : Int)) (p.ImageWidth : Int)
    let ny ← goMod ((globalY : Int) + dy + (p.ImageHeight : Int)) (p.ImageHeight : Int)
    let c ← indexInt world ny nx
    some (if c = 0xFF then sum + 1 else sum)

/-- Lines 32-44: the alive-neighbour count of `(x, globalY)`. -/
def neighbourSum (p : Params) (world : Grid) (x globalY : Nat) : Option Nat :=
  offsets.foldlM
    (fun sum dy => offsets.foldlM (fun sum dx => countNeighbour p world x globalY dy dx sum) sum)
    0

/-- Lines 47-56: the next state from the current byte and the count. -/
def nextState (current sum : Nat) : Nat :=
  if current = 0xFF then
    if sum = 2 ∨ sum = 3 then 0xFF else 0x00
  else
    if sum = 3 then 0xFF else 0x00

/-- The variables the loops of `worker` update. -/
structure WorkerState where
  nextSlice : Grid
  flipped : List Cell
deriving DecidableEq, Repr

/-- Body of the `x` loop, lines 32-61. -/
def workerCell (p : Params) (world : Grid) (startY y x : Nat) (st : WorkerState) :
    Option WorkerState := do
  let globalY := startY + y
  let sum ← neighbourSum p world x globalY
  let current ← index world globalY x
  let next := nextState current sum
  let nextSlice ← setCell st.nextSlice y x next
  let flipped := if current ≠ next then st.flipped ++ [⟨x, globalY⟩] else st.flipped
  some ⟨nextSlice, flipped⟩

/-- Lines 29-63: the two nested loops over the row range. -/
def workerLoop (p : Params) (world : Grid) (startY height : Nat) (st : WorkerState) :
    Option WorkerState :=
  (List.range height).foldlM
    (fun st y => (List.range p.ImageWidth).foldlM (fun st x => workerCell p world startY y x st) st)
    st

/-- The function `worker`: the returned sub-grid and the events it sends. -/
def worker (p : Params) (world : Grid) (startY height turn : Nat) :
    Option (Grid × List Event) := do
  let st ← workerLoop p world startY height ⟨makeGrid height p.ImageWidth, []⟩
  let events := if st.flipped.length > 0 then [Event.CellsFlipped (turn + 1) st.flipped] else []
  some (st.nextSlice, events)


/-! ## Closed forms used in the proofs -/
def WF (p : Params) (world : Grid) : Prop :=
  world.length = p.ImageHeight ∧ ∀ row ∈ world, row.length = p.ImageWidth

/-- The byte at row `y`, column `x`, read totally (0 outside the grid). -/
def cellAt (world : Grid) (y x : Nat) : Nat := (index world y x).getD 0

/-- The wrapped coordinate `(a + d + n) % n` of lines 38-39, as an index. -/
def wrapIdx (a : Nat) (d : Int) (n : Nat) : Nat := (((a : Int) + d + (n : Int)).tmod (n : Int)).toNat

/-- The contribution (0 or 1) of offset `(dx, dy)` to the count of `(x, globalY)`. -/
def aliveAt (p : Params) (world : Grid) (x globalY : Nat) (dy dx : Int) : Nat :=
  if cellAt world (wrapIdx globalY dy p.ImageHeight) (wrapIdx x dx p.ImageWidth) = 0xFF then 1 else 0

/-- The closed form of `neighbourSum`: the eight contributions in loop order. -/
def sumAt (p : Params) (world : Grid) (x globalY : Nat) : Nat :=
  aliveAt p world x globalY (-1) (-1) + aliveAt p world x globalY (-1) 0
    + aliveAt p world x globalY (-1) 1 + aliveAt p world x globalY 0 (-1)
    + aliveAt p world x globalY 0 1 + aliveAt p world x globalY 1 (-1)
    + aliveAt p world x globalY 1 0 + aliveAt p world x globalY 1 1


/-- The closed form of the byte `worker` writes for `(x, globalY)`. -/
def nextAt (p : Params) (world : Grid) (x globalY : Nat) : Nat :=
  nextState (cellAt world globalY x) (sumAt p world x globalY)

/-- The grid of `h` rows of `w` cells that holds `v i j` at the positions before
`(y, x)` in row-major order and 0 elsewhere: the state of a fill loop that has
reached `(y, x)`. -/
def filledGrid (h w : Nat) (v : Nat → Nat → Nat) (y x : Nat) : Grid :=
  (List.range h).map fun i => (List.range w).map fun j =>
    if i < y ∨ (i = y ∧ j < x) then v i j else 0

/-- The grid of `h` rows of `w` cells that holds `v i j` at row `i`, column `j`. -/
def fullGrid (h w : Nat) (v : Nat → Nat → Nat) : Grid :=
  (List.range h).map fun i => (List.range w).map fun j => v i j

/-- The closed form of the sub-grid `worker` returns for a row range. -/
def nextRows (p : Params) (world : Grid) (startY height : Nat) : Grid :=
  (List.range height).map fun y => (List.range p.ImageWidth).map fun x =>
    nextAt p world x (startY + y)

/-- The flipped cells among the first `k` columns of row `globalY`. -/
def rowFlips (p : Params) (world : Grid) (globalY k : Nat) : List Cell :=
  ((List.range k).filter fun x => decide (cellAt world globalY x ≠ nextAt p world x globalY)).map
    fun x => ⟨x, globalY⟩

/-- The closed form of the `flipped` list of `worker` for a row range. -/
def flipsIn (p : Params) (world : Grid) (startY height : Nat) : List Cell :=
  (List.range height).flatMap fun y => rowFlips p world (startY + y) p.ImageWidth


/-! ## savePGM (lines 72-87) -/

/-- The function `savePGM`: the actions it performs on the channels. The file
name is `fmt.Sprintf("%dx%dx%d", ...)`, the decimal numerals joined by `x`. -/
def savePGM (p : Params) (world : Grid) (turn : Nat) : Option (List Out) := do
  let filename :=
    toString p.ImageWidth ++ "x" ++ toString p.ImageHeight ++ "x" ++ toString turn
  let cells ← (List.range p.ImageHeight).foldlM
    (fun outs y => (List.range p.ImageWidth).foldlM
      (fun outs x => do
        let b ← index world y x
        some (outs ++ [Out.output b]))
      outs)
    []
  some ([Out.command IoCommand.ioOutput, Out.filename filename] ++ cells ++
    [Out.command IoCommand.ioCheckIdle, Out.idle,
      Out.event (Event.ImageOutputComplete turn filename)])

/-! ## distributor (lines 90-282) -/

/-- The variables of the control loop: `world`, `turn`, `paused`. -/
structure LoopState where
  world : Grid
  turn : Nat
  paused : Bool
deriving DecidableEq, Repr

/-- Lines 97-109: allocate `world` and fill it from `c.ioInput`, reporting
every alive cell. Bytes are received in row-major order, so the byte stored at
`(x, y)` is the `(y * ImageWidth + x)`-th one of the stream `ioInput`. -/
def loadWorld (p : Params) (ioInput : Nat → Nat) : Option (Grid × List Out) :=
  (List.range p.ImageHeight).foldlM
    (fun acc y => (List.range p.ImageWidth).foldlM
      (fun acc x => do
        let b := ioInput (y * p.ImageWidth + x)
        let world ← setCell acc.1 y x b
        let c ← index world y x
        some (world,
          if c = 0xFF then acc.2 ++ [Out.event (Event.CellFlipped 0 ⟨x, y⟩)] else acc.2))
      acc)
    (makeGrid p.ImageHeight p.ImageWidth, [])

/-- Lines 210-214 (the same code at 153-157, 178-182 and 270-274): the copy of
`world` taken under the lock. -/
def copyWorld (p : Params) (world : Grid) : Option Grid :=
  (List.range world.length).foldlM
    (fun worldCopy y =>
      match world[y]? with
      | none => none
      | some row =>
        if y < worldCopy.length then
          some (worldCopy.set y (goCopy (List.replicate p.ImageWidth 0) row))
        else none)
    (List.replicate p.ImageHeight [])

/-- Lines 168-175 (and 260-267): the list of alive cells, row by row. -/
def aliveCells (p : Params) (world : Grid) : Option (List Cell) :=
  (List.range p.ImageHeight).foldlM
    (fun alive y => (List.range p.ImageWidth).foldlM
      (fun alive x => do
        let b ← index world y x
        some (if b = 0xFF then alive ++ [⟨x, y⟩] else alive))
      alive)
    []

/-- Lines 224-228: `(startY, height)` of worker `w`. -/
def workerRange (p : Params) (sliceHeight w : Nat) : Nat × Nat :=
  let startY := w * sliceHeight
  let height := sliceHeight
  let height := if w = p.Threads - 1 then height + p.ImageHeight % p.Threads else height
  (startY, height)

/-- Lines 223-234: one `worker` call per thread on the shared snapshot; the
result of worker `w` is what is later received from `results[w]`. -/
def launchWorkers (p : Params) (sliceHeight : Nat) (worldCopyForWorkers : Grid)
    (currentTurn : Nat) : Option (List (Grid × List Event)) :=
  (List.range p.Threads).foldlM
    (fun results w => do
      let r ← worker p worldCopyForWorkers (workerRange p sliceHeight w).1
        (workerRange p sliceHeight w).2 currentTurn
      some (results ++ [r]))
    []

/-- Lines 239-241: copy the rows of one returned sub-grid into `nextWorld`. -/
def mergeSlice (nextWorld : Grid) (startY : Nat) (nextSlice : Grid) : Option Grid :=
  (List.range nextSlice.length).foldlM
    (fun nextWorld y =>
      match nextWorld[startY + y]?, nextSlice[y]? with
      | some dst, some src => some (nextWorld.set (startY + y) (goCopy dst src))
      | _, _ => none)
    nextWorld

/-- Lines 236-242: receive every worker's sub-grid and merge it. -/
def collectResults (p : Params) (sliceHeight : Nat) (results : List (Grid × List Event))
    (nextWorld : Grid) : Option Grid :=
  (List.range p.Threads).foldlM
    (fun nextWorld w =>
      match results[w]? with
      | none => none
      | some r => mergeSlice nextWorld (w * sliceHeight) r.1)
    nextWorld

/-- Lines 209-249: one committed turn. `order` lists the workers in the order
in which their events reach the event sink; all of them arrive before
`TurnComplete`, which is sent after every result has been received. -/
def turnStep (p : Params) (sliceHeight : Nat) (st : LoopState) (order : List Nat) :
    Option (LoopState × List Out) := do
  let worldCopyForWorkers ← copyWorld p st.world
  let currentTurn := st.turn
  let nextWorld := makeGrid p.ImageHeight p.ImageWidth
  let results ← launchWorkers p sliceHeight worldCopyForWorkers currentTurn
  let nextWorld ← collectResults p sliceHeight results nextWorld
  let workerEvents := order.flatMap fun w =>
    match results[w]? with
    | some r => r.2
    | none => []
  some ({ st with world := nextWorld, turn := st.turn + 1 },
    (workerEvents ++ [Event.TurnComplete (currentTurn + 1)]).map Out.event)

/-- Lines 152-160: the snapshot command. -/
def snapshot (p : Params) (st : LoopState) : Option (List Out) := do
  let worldCopy ← copyWorld p st.world
  let currentTurn := st.turn
  savePGM p worldCopy currentTurn

/-- Lines 163-190: the quit command. `Out.tickerStop` is `ticker.Stop()` and
`Out.done` is the send `done <- true`. -/
def quit (p : Params) (st : LoopState) : Option (List Out) := do
  let alive ← aliveCells p st.world
  let worldCopy ← copyWorld p st.world
  let currentTurn := st.turn
  let save ← savePGM p worldCopy currentTurn
  some ([Out.tickerStop, Out.done, Out.event (Event.FinalTurnComplete st.turn alive)] ++ save ++
    [Out.event (Event.StateChange currentTurn State.Quitting), Out.closeEvents])

/-- Lines 192-204: the pause toggle. -/
def pause (st : LoopState) : LoopState × List Out :=
  let paused := !st.paused
  if paused then
    ({ st with paused := paused }, [Out.event (Event.StateChange st.turn State.Paused)])
  else
    ({ st with paused := paused }, [Out.event (Event.StateChange st.turn State.Executing)])

/-- Lines 256-281: the end of the run once the turn limit is reached. -/
def finish (p : Params) (st : LoopState) : Option (List Out) := do
  let alive ← aliveCells p st.world
  let finalTurn := st.turn
  let worldCopy ← copyWorld p st.world
  let save ← savePGM p worldCopy finalTurn
  some ([Out.tickerStop, Out.done, Out.event (Event.FinalTurnComplete finalTurn alive)] ++ save ++
    [Out.event (Event.StateChange finalTurn State.Quitting), Out.closeEvents])

/-- The outcome of one `select` of line 148: a key taken from `c.keyPresses`,
or the `default` branch, together with the delivery order of that turn's
worker events. -/
inductive Select where
  | key (k : Char)
  | default (order : List Nat)
deriving DecidableEq, Repr

/-- What a run has done: the actions performed, the loop variables it ended
with, and whether `distributor` returned (`false`: the outcomes supplied ran
out while the loop was still going). -/
structure Run where
  outs : List Out
  final : LoopState
  returned : Bool
deriving DecidableEq, Repr

/-- Lines 147-281: the control loop over a sequence of `select` outcomes,
followed by the final report. -/
def controlLoop (p : Params) (sliceHeight : Nat) : List Select → LoopState → Option Run
  | [], st =>
    if st.turn < p.Turns then some ⟨[], st, false⟩
    else do
      let outs ← finish p st
      some ⟨outs, st, true⟩
  | sel :: rest, st =>
    if st.turn < p.Turns then
      match sel with
      | Select.key k =>
        if k = 's' then do
          let outs ← snapshot p st
          let r ← controlLoop p sliceHeight rest st
          some { r with outs := outs ++ r.outs }
        else if k = 'q' then do
          let outs ← quit p st
          some ⟨outs, st, true⟩
        else if k = 'p' then do
          let r ← controlLoop p sliceHeight rest (pause st).1
          some { r with outs := (pause st).2 ++ r.outs }
        else controlLoop p sliceHeight rest st
      | Select.default order =>
        if !st.paused then do
          let step ← turnStep p sliceHeight st order
          let r ← controlLoop p sliceHeight rest step.1
          some { r with outs := step.2 ++ r.outs }
        else controlLoop p sliceHeight rest st
    else do
      let outs ← finish p st
      some ⟨outs, st, true⟩

/-- The function `distributor`, run on the byte stream `ioInput` and the
sequence `sels` of `select` outcomes. The trace is that of the distributor
goroutine and the workers it starts. The ticker goroutine of lines 116-138 is
not part of it: its `AliveCellsCount` events interleave with the trace up to
`Out.done`, the send on `done` after which that goroutine has returned. -/
def distributor (p : Params) (ioInput : Nat → Nat) (sels : List Select) : Option Run := do
  let filename := toString p.ImageWidth ++ "x" ++ toString p.ImageHeight
  let loaded ← loadWorld p ioInput
  let turn := 0
  let sliceHeight ← goDiv p.ImageHeight p.Threads
  let r ← controlLoop p sliceHeight sels ⟨loaded.1, turn, false⟩
  some { r with outs := [Out.command IoCommand.ioInput, Out.filename filename] ++ loaded.2 ++
    [Out.event (Event.StateChange turn State.Executing)] ++ r.outs }

/-- The positions holding `0xFF`, row by row and left to right. -/
def aliveList (p : Params) (world : Grid) : List Cell :=
  (List.range p.ImageHeight).flatMap fun y =>
    ((List.range p.ImageWidth).filter fun x => decide (cellAt world y x = 0xFF)).map
      fun x => ⟨x, y⟩

/-- The cells of the grid sent on `c.ioOutput`, in row-major order. -/
def cellsRowMajor (p : Params) (world : Grid) : List Out :=
  (List.range p.ImageHeight).flatMap fun y =>
    (List.range p.ImageWidth).map fun x => Out.output (cellAt world y x)

/-- The grid loaded from the byte stream `ioInput`. -/
def inputGrid (p : Params) (ioInput : Nat → Nat) : Grid :=
  fullGrid p.ImageHeight p.ImageWidth fun y x => ioInput (y * p.ImageWidth + x)

/-- The `CellFlipped` events sent while loading, one per alive cell. -/
def loadFlips (p : Params) (ioInput : Nat → Nat) : List Out :=
  (List.range p.ImageHeight).flatMap fun y =>
    ((List.range p.ImageWidth).filter fun x => decide (ioInput (y * p.ImageWidth + x) = 0xFF)).map
      fun x => Out.event (Event.CellFlipped 0 ⟨x, y⟩)

/-- The number of rows covered by the ranges of workers `0 .. k-1`. -/
def covered (p : Params) (sliceHeight k : Nat) : Nat :=
  if k = p.Threads then p.ImageHeight else k * sliceHeight

/-- The events worker `w` sends in the turn that follows `turn`. -/
def workerEvents (p : Params) (world : Grid) (sliceHeight turn w : Nat) : List Event :=
  if (flipsIn p world (workerRange p sliceHeight w).1 (workerRange p sliceHeight w).2).length > 0
  then [Event.CellsFlipped (turn + 1)
    (flipsIn p world (workerRange p sliceHeight w).1 (workerRange p sliceHeight w).2)]
  else []

/-- The worker events of one turn in the delivery order `order`. -/
def turnEvents (p : Params) (world : Grid) (sliceHeight turn : Nat) (order : List Nat) :
    List Event :=
  order.flatMap fun w => if w < p.Threads then workerEvents p world sliceHeight turn w else []

/-! ## The rule in the words of the specification -/

/-- The eight offsets `(dx, dy)` of `{-1,0,1}^2` other than `(0,0)`. -/
def mooreOffsets : List (Int × Int) :=
  (List.product [-1, 0, 1] [-1, 0, 1]).filter fun d => decide (d ≠ (0, 0))

/-- The number of offsets `(dx, dy)` for which the snapshot holds `0xFF` at
`((x+dx) mod width, (y+dy) mod height)`, with the mathematical `mod`. -/
def toroidalAliveNeighbours (width height : Nat) (world : Grid) (x y : Nat) : Nat :=
  mooreOffsets.countP fun d =>
    decide (cellAt world (((y : Int) + d.2) % (height : Int)).toNat
      (((x : Int) + d.1) % (width : Int)).toNat = 0xFF)

/-- Conway's rule on the toroidal neighbourhood: `0xFF` exactly when the cell
is `0xFF` and `n` is 2 or 3, or the cell is not `0xFF` and `n` is 3. -/
def conwayNext (width height : Nat) (world : Grid) (x y : Nat) : Nat :=
  if (cellAt world y x = 0xFF ∧
        (toroidalAliveNeighbours width height world x y = 2 ∨
          toroidalAliveNeighbours width height world x y = 3)) ∨
      (cellAt world y x ≠ 0xFF ∧ toroidalAliveNeighbours width height world x y = 3)
  then 0xFF else 0x00

/-- The positions of the row range, row by row and left to right, at which the
returned sub-grid differs from the snapshot; `Y` is the global row. -/
def flippedCells (p : Params) (world : Grid) (startY height : Nat) (nextSlice : Grid) :
    List Cell :=
  (List.range height).flatMap fun y =>
    ((List.range p.ImageWidth).filter fun x =>
      decide (cellAt nextSlice y x ≠ cellAt world (startY + y) x)).map fun x => ⟨x, startY + y⟩

/-- Row-major order of positions: by `Y`, then by `X`. -/
def rowMajorLt (a b : Cell) : Prop :=
  a.Y < b.Y ∨ (a.Y = b.Y ∧ a.X < b.X)

/-- Two snapshots agree everywhere except possibly at `(x, y)`. -/
def differOnlyAt (w1 w2 : Grid) (x y : Nat) : Prop :=
  ∀ i j, ¬ (i = y ∧ j = x) → cellAt w1 i j = cellAt w2 i j

/-- Row `y` lies in the half-open range `[startY, startY + height)` given as the
pair `(startY, height)`. -/
def inRange (r : Nat × Nat) (y : Nat) : Prop :=
  r.1 ≤ y ∧ y < r.1 + r.2

/-- The closed form of the actions of `savePGM` on a well-formed grid. -/
def saveOuts (p : Params) (world : Grid) (turn : Nat) : List Out :=
  [Out.command IoCommand.ioOutput,
    Out.filename (toString p.ImageWidth ++ "x" ++ toString p.ImageHeight ++ "x" ++
      toString turn)] ++
  cellsRowMajor p world ++
  [Out.command IoCommand.ioCheckIdle, Out.idle,
    Out.event (Event.ImageOutputComplete turn
      (toString p.ImageWidth ++ "x" ++ toString p.ImageHeight ++ "x" ++ toString turn))]

/-- The closed form of the actions of the final report (quit, or turn limit
reached). -/
def finalOuts (p : Params) (st : LoopState) : List Out :=
  [Out.tickerStop, Out.done, Out.event (Event.FinalTurnComplete st.turn (aliveList p st.world))] ++
    saveOuts p st.world st.turn ++
    [Out.event (Event.StateChange st.turn State.Quitting), Out.closeEvents]

/-- The loop variables after one committed turn. -/
def committed (p : Params) (st : LoopState) : LoopState :=
  ⟨nextRows p st.world 0 p.ImageHeight, st.turn + 1, st.paused⟩

/-- The events of one committed turn, ending with `TurnComplete`. -/
def turnOuts (p : Params) (st : LoopState) (order : List Nat) : List Out :=
  (turnEvents p st.world (p.ImageHeight / p.Threads) st.turn order ++
    [Event.TurnComplete (st.turn + 1)]).map Out.event

/-- The `CompletedTurns` values of the `TurnComplete` events of a trace, in
order. -/
def turnCompletes (outs : List Out) : List Nat :=
  outs.filterMap fun o =>
    match o with
    | Out.event (Event.TurnComplete n) => some n
    | _ => none

/-- The `FinalTurnComplete` events of a trace, in order. -/
def finalReports (outs : List Out) : List (Nat × List Cell) :=
  outs.filterMap fun o =>
    match o with
    | Out.event (Event.FinalTurnComplete n alive) => some (n, alive)
    | _ => none

/-- An action is a `CellFlipped` or a `CellsFlipped` event. -/
def isFlip (o : Out) : Bool :=
  match o with
  | Out.event (Event.CellFlipped _ _) => true
  | Out.event (Event.CellsFlipped _ _) => true
  | _ => false

/-- Every cell of the grid is one of the two sentinel bytes. -/
def Sentinel (world : Grid) : Prop :=
  ∀ row ∈ world, ∀ c ∈ row, c = 0x00 ∨ c = 0xFF

/-- The actions `distributor` performs before the control loop starts. -/
def startOuts (p : Params) (ioInput : Nat → Nat) : List Out :=
  [Out.command IoCommand.ioInput,
    Out.filename (toString p.ImageWidth ++ "x" ++ toString p.ImageHeight)] ++
  loadFlips p ioInput ++ [Out.event (Event.StateChange 0 State.Executing)]

/-! ## Auxiliary lemmas -/
theorem foldlM_range_inv {σ : Type} (f : σ → Nat → Option σ) (Inv : Nat → σ → Prop) (n : Nat)
    (init : σ) (h0 : Inv 0 init)
    (hstep : ∀ k st, k < n → Inv k st → ∃ st', f st k = some st' ∧ Inv (k + 1) st') :
    ∃ st', (List.range n).foldlM f init = some st' ∧ Inv n st' := by
  induction n with
  | zero => exact ⟨init, by simp, h0⟩
  | succ m ih =>
    obtain ⟨st, hst, hinv⟩ := ih (fun k st hk => hstep k st (Nat.lt_succ_of_lt hk))
    obtain ⟨st', hf, hinv'⟩ := hstep m st (Nat.lt_succ_self m) hinv
    refine ⟨st', ?_, hinv'⟩
    rw [List.range_succ, List.foldlM_append, hst]
    simp [hf]

theorem wrapIdx_lt (a : Nat) (d : Int) (n : Nat) (hn : 0 < n) (hd : -1 ≤ d) :
    wrapIdx a d n < n := by
  unfold wrapIdx
  have h0 : (0 : Int) ≤ (a : Int) + d + (n : Int) := by omega
  rw [Int.tmod_eq_emod h0 (by omega)]
  have := Int.emod_lt_of_pos ((a : Int) + d + (n : Int)) (by omega : (0 : Int) < (n : Int))
  have := Int.emod_nonneg ((a : Int) + d + (n : Int)) (by omega : (n : Int) ≠ 0)
  omega

theorem index_eq_cellAt (p : Params) (world : Grid) (hw : WF p world) (y x : Nat)
    (hy : y < p.ImageHeight) (hx : x < p.ImageWidth) : index world y x = some (cellAt world y x) := by
  unfold cellAt index
  obtain ⟨hl, hr⟩ := hw
  have hy' : y < world.length := by omega
  rw [List.getElem?_eq_getElem hy']
  have : (world[y]).length = p.ImageWidth := hr _ (List.getElem_mem _)
  simp only
  rw [List.getElem?_eq_getElem (by omega)]
  simp

theorem countNeighbour_eq (p : Params) (world : Grid) (hw : WF p world) (x globalY : Nat)
    (hx : x < p.ImageWidth) (hy : globalY < p.ImageHeight) (dy dx : Int) (sum : Nat)
    (hdy : -1 ≤ dy) (hdx : -1 ≤ dx) (hne : ¬ (dx = 0 ∧ dy = 0)) :
    countNeighbour p world x globalY dy dx sum = some (sum + aliveAt p world x globalY dy dx) := by
  unfold countNeighbour
  rw [if_neg hne]
  have hW : (p.ImageWidth : Int) ≠ 0 := by omega
  have hH : (p.ImageHeight : Int) ≠ 0 := by omega
  have h1 := wrapIdx_lt x dx p.ImageWidth (by omega) hdx
  have h2 := wrapIdx_lt globalY dy p.ImageHeight (by omega) hdy
  have n1 : 0 ≤ ((x : Int) + dx + (p.ImageWidth : Int)).tmod (p.ImageWidth : Int) :=
    Int.tmod_nonneg _ (by omega)
  have n2 : 0 ≤ ((globalY : Int) + dy + (p.ImageHeight : Int)).tmod (p.ImageHeight : Int) :=
    Int.tmod_nonneg _ (by omega)
  have hi := index_eq_cellAt p world hw _ _ h2 h1
  unfold wrapIdx at hi
  simp only [goMod, if_neg hW, if_neg hH, indexInt, Option.bind_eq_bind, Option.some_bind]
  rw [if_neg (by omega), hi]
  simp only [Option.some_bind, aliveAt, wrapIdx]
  split <;> rfl

theorem neighbourSum_eq (p : Params) (world : Grid) (hw : WF p world) (x globalY : Nat)
    (hx : x < p.ImageWidth) (hy : globalY < p.ImageHeight) :
    neighbourSum p world x globalY = some (sumAt p world x globalY) := by
  have h := countNeighbour_eq p world hw x globalY hx hy
  unfold neighbourSum offsets
  simp only [List.foldlM_cons, List.foldlM_nil, Option.bind_eq_bind, Option.pure_def]
  rw [h (-1) (-1) _ (by decide) (by decide) (by decide)]
  simp only [Option.some_bind]
  rw [h (-1) 0 _ (by decide) (by decide) (by decide)]
  simp only [Option.some_bind]
  rw [h (-1) 1 _ (by decide) (by decide) (by decide)]
  simp only [Option.some_bind]
  rw [h 0 (-1) _ (by decide) (by decide) (by decide)]
  simp only [Option.some_bind]
  have hc : countNeighbour p world x globalY 0 0 = fun s => some s := by
    funext s; simp [countNeighbour]
  rw [hc]
  simp only [Option.some_bind]
  rw [h 0 1 _ (by decide) (by decide) (by decide)]
  simp only [Option.some_bind]
  rw [h 1 (-1) _ (by decide) (by decide) (by decide)]
  simp only [Option.some_bind]
  rw [h 1 0 _ (by decide) (by decide) (by decide)]
  simp only [Option.some_bind]
  rw [h 1 1 _ (by decide) (by decide) (by decide)]
  simp [sumAt]
theorem setCell_filledGrid (height width : Nat) (v : Nat → Nat → Nat) (y x : Nat)
    (hy : y < height) (hx : x < width) :
    setCell (filledGrid height width v y x) y x (v y x)
      = some (filledGrid height width v y (x + 1)) := by
  unfold setCell
  have hrow : (filledGrid height width v y x)[y]? = some ((List.range width).map fun j =>
      if y < y ∨ (y = y ∧ j < x) then v y j else 0) := by
    simp [filledGrid, List.getElem?_map, List.getElem?_range hy]
  rw [hrow]
  simp only [List.length_map, List.length_range, if_pos hx]
  congr 1
  apply List.ext_getElem?
  intro i
  simp only [filledGrid, List.getElem?_set, List.length_map, List.length_range, List.getElem?_map]
  by_cases hi : y = i
  · subst hi
    simp only [if_true, if_pos hy, List.getElem?_range hy, Option.map_some']
    congr 1
    apply List.ext_getElem?
    intro j
    simp only [List.getElem?_set, List.length_map, List.length_range, List.getElem?_map]
    by_cases hj : x = j
    · subst hj
      simp [hx, List.getElem?_range hx]
    · rw [if_neg hj]
      by_cases hjw : j < width
      · simp only [List.getElem?_range hjw, Option.map_some']
        congr 1
        have : (j < x + 1) ↔ (j < x) := by omega
        simp [this]
      · simp [List.getElem?_eq_none (l := List.range width) (by simpa using Nat.le_of_not_lt hjw)]
  · rw [if_neg hi]
    by_cases hih : i < height
    · simp only [List.getElem?_range hih, Option.map_some']
      congr 1
      apply List.map_congr_left
      intro j _
      have h1 : ¬ (i = y) := fun h => hi h.symm
      simp [h1]
    · simp [List.getElem?_eq_none (l := List.range height) (by simpa using Nat.le_of_not_lt hih)]

theorem filledGrid_next (height width : Nat) (v : Nat → Nat → Nat) (y : Nat) :
    filledGrid height width v y width = filledGrid height width v (y + 1) 0 := by
  unfold filledGrid
  apply List.map_congr_left
  intro i _
  apply List.map_congr_left
  intro j hj
  have hj' : j < width := List.mem_range.mp hj
  have : (i < y ∨ (i = y ∧ j < width)) ↔ (i < y + 1 ∨ (i = y + 1 ∧ j < 0)) := by omega
  simp only [this]

theorem filledGrid_zero (height width : Nat) (v : Nat → Nat → Nat) :
    filledGrid height width v 0 0 = makeGrid height width := by
  unfold filledGrid makeGrid
  apply List.ext_getElem?
  intro i
  simp only [List.getElem?_map, List.getElem?_replicate]
  by_cases hi : i < height
  · simp only [List.getElem?_range hi, Option.map_some', if_pos hi]
    congr 1
    apply List.ext_getElem?
    intro j
    simp only [List.getElem?_map, List.getElem?_replicate]
    by_cases hj : j < width
    · simp [List.getElem?_range hj, hj]
    · simp [List.getElem?_eq_none (l := List.range width) (by simpa using Nat.le_of_not_lt hj), hj]
  · simp [List.getElem?_eq_none (l := List.range height) (by simpa using Nat.le_of_not_lt hi), hi]

theorem filledGrid_full (height width : Nat) (v : Nat → Nat → Nat) :
    filledGrid height width v height 0 = fullGrid height width v := by
  unfold filledGrid fullGrid
  apply List.map_congr_left
  intro i hi
  have hi' : i < height := List.mem_range.mp hi
  apply List.map_congr_left
  intro j _
  simp [hi']

theorem workerCell_eq (p : Params) (world : Grid) (hw : WF p world) (startY height y x : Nat)
    (hy : y < height) (hx : x < p.ImageWidth) (hin : startY + height ≤ p.ImageHeight)
    (fl : List Cell) :
    workerCell p world startY y x ⟨filledGrid height p.ImageWidth (fun i j => nextAt p world j (startY + i)) y x, fl⟩
      = some ⟨filledGrid height p.ImageWidth (fun i j => nextAt p world j (startY + i)) y (x + 1),
          fl ++ (if cellAt world (startY + y) x ≠ nextAt p world x (startY + y)
            then [⟨x, startY + y⟩] else [])⟩ := by
  unfold workerCell
  simp only [Option.bind_eq_bind]
  rw [neighbourSum_eq p world hw x (startY + y) hx (by omega)]
  simp only [Option.some_bind]
  rw [index_eq_cellAt p world hw (startY + y) x (by omega) hx]
  simp only [Option.some_bind]
  have hs := setCell_filledGrid height p.ImageWidth (fun i j => nextAt p world j (startY + i)) y x hy hx
  have hs' : setCell (filledGrid height p.ImageWidth (fun i j => nextAt p world j (startY + i)) y x)
      y x (nextState (cellAt world (startY + y) x) (sumAt p world x (startY + y))) = _ := hs
  rw [hs']
  simp only [Option.some_bind, nextAt]
  split <;> simp

theorem rowFlips_succ (p : Params) (world : Grid) (globalY k : Nat) :
    rowFlips p world globalY (k + 1) = rowFlips p world globalY k ++
      (if cellAt world globalY k ≠ nextAt p world k globalY then [⟨k, globalY⟩] else []) := by
  unfold rowFlips
  rw [List.range_succ, List.filter_append, List.map_append]
  congr 1
  by_cases h : cellAt world globalY k ≠ nextAt p world k globalY
  · simp [List.filter_cons, h]
  · simp [List.filter_cons, h]

theorem flipsIn_succ (p : Params) (world : Grid) (startY y : Nat) :
    flipsIn p world startY (y + 1) = flipsIn p world startY y ++ rowFlips p world (startY + y) p.ImageWidth := by
  unfold flipsIn
  rw [List.range_succ, List.flatMap_append]
  simp

theorem workerLoop_eq (p : Params) (world : Grid) (hw : WF p world) (startY height : Nat)
    (hin : startY + height ≤ p.ImageHeight) :
    workerLoop p world startY height ⟨makeGrid height p.ImageWidth, []⟩
      = some ⟨nextRows p world startY height, flipsIn p world startY height⟩ := by
  unfold workerLoop
  obtain ⟨st, hst, hinv⟩ := foldlM_range_inv
    (fun st y => (List.range p.ImageWidth).foldlM (fun st x => workerCell p world startY y x st) st)
    (fun y st => y ≤ height ∧ st = ⟨filledGrid height p.ImageWidth (fun i j => nextAt p world j (startY + i)) y 0, flipsIn p world startY y⟩)
    height ⟨makeGrid height p.ImageWidth, []⟩
    ⟨Nat.zero_le _, by rw [filledGrid_zero]; simp [flipsIn]⟩
    (by
      intro y st hy ⟨_, hst⟩
      subst hst
      obtain ⟨st', hst', hinv'⟩ := foldlM_range_inv
        (fun st x => workerCell p world startY y x st)
        (fun x st => st = ⟨filledGrid height p.ImageWidth (fun i j => nextAt p world j (startY + i)) y x,
            flipsIn p world startY y ++ rowFlips p world (startY + y) x⟩)
        p.ImageWidth ⟨filledGrid height p.ImageWidth (fun i j => nextAt p world j (startY + i)) y 0, flipsIn p world startY y⟩
        (by simp [rowFlips])
        (by
          intro x st hx hst
          subst hst
          refine ⟨_, workerCell_eq p world hw startY height y x hy hx hin _, ?_⟩
          show _ = _
          rw [rowFlips_succ, List.append_assoc])
      refine ⟨st', hst', by omega, ?_⟩
      have hinv'' : st' = _ := hinv'
      rw [hinv'', filledGrid_next, flipsIn_succ])
  rw [hst, hinv.2, filledGrid_full]
  rfl

theorem worker_eq (p : Params) (world : Grid) (hw : WF p world) (startY height turn : Nat)
    (hin : startY + height ≤ p.ImageHeight) :
    worker p world startY height turn
      = some (nextRows p world startY height,
          if (flipsIn p world startY height).length > 0
            then [Event.CellsFlipped (turn + 1) (flipsIn p world startY height)] else []) := by
  unfold worker
  simp only [Option.bind_eq_bind]
  rw [workerLoop_eq p world hw startY height hin]
  rfl

theorem foldlM_range_append {α : Type} (f : List α → Nat → Option (List α)) (g : Nat → List α)
    (n : Nat) (init : List α) (h : ∀ k acc, k < n → f acc k = some (acc ++ g k)) :
    (List.range n).foldlM f init = some (init ++ (List.range n).flatMap g) := by
  obtain ⟨st, hst, hinv⟩ := foldlM_range_inv f
    (fun k acc => acc = init ++ (List.range k).flatMap g) n init (by simp)
    (by
      intro k acc hk hacc
      refine ⟨_, h k acc hk, ?_⟩
      show _ = _
      rw [hacc, List.range_succ, List.flatMap_append, List.append_assoc]
      simp)
  rw [hst, hinv]

theorem goCopy_same (dst src : List Nat) (h : dst.length = src.length) : goCopy dst src = src := by
  unfold goCopy
  rw [h, List.take_length, List.drop_eq_nil_of_le (by omega)]
  simp

theorem WF_row (p : Params) (world : Grid) (hw : WF p world) (y : Nat) (hy : y < p.ImageHeight) :
    ∃ row, world[y]? = some row ∧ row.length = p.ImageWidth := by
  obtain ⟨hl, hr⟩ := hw
  have hy' : y < world.length := by omega
  exact ⟨world[y], List.getElem?_eq_getElem hy', hr _ (List.getElem_mem _)⟩

theorem copyWorld_eq (p : Params) (world : Grid) (hw : WF p world) :
    copyWorld p world = some world := by
  unfold copyWorld
  obtain ⟨st, hst, hlen, hpt⟩ := foldlM_range_inv
    (fun worldCopy y =>
      match world[y]? with
      | none => none
      | some row =>
        if y < worldCopy.length then
          some (worldCopy.set y (goCopy (List.replicate p.ImageWidth 0) row))
        else none)
    (fun y wc => wc.length = p.ImageHeight ∧ ∀ i, i < y → wc[i]? = world[i]?)
    world.length (List.replicate p.ImageHeight [])
    ⟨by simp, by intro i hi; omega⟩
    (by
      intro y wc hy ⟨hlen, hpt⟩
      obtain ⟨row, hrow, hrl⟩ := WF_row p world hw y (by rw [← hw.1]; exact hy)
      have hyl : y < wc.length := by rw [hlen, ← hw.1]; exact hy
      refine ⟨wc.set y row, ?_, by simp [hlen], ?_⟩
      · simp only [hrow, if_pos hyl]
        rw [goCopy_same _ _ (by simp [hrl])]
      · intro i hi
        rw [List.getElem?_set]
        by_cases h : y = i
        · subst h
          simp [hyl, hrow]
        · rw [if_neg h]
          exact hpt i (by omega))
  rw [hst]
  congr 1
  apply List.ext_getElem?
  intro i
  by_cases hi : i < world.length
  · exact hpt i hi
  · have h1 := hw.1
    rw [List.getElem?_eq_none (by omega), List.getElem?_eq_none (by omega)]

theorem aliveCells_eq (p : Params) (world : Grid) (hw : WF p world) :
    aliveCells p world = some (aliveList p world) := by
  unfold aliveCells aliveList
  rw [foldlM_range_append _
    (fun y => ((List.range p.ImageWidth).filter fun x => decide (cellAt world y x = 0xFF)).map
      fun x => (⟨x, y⟩ : Cell))]
  · simp
  · intro y acc hy
    rw [foldlM_range_append _ (fun x => if cellAt world y x = 0xFF then [(⟨x, y⟩ : Cell)] else [])]
    · congr 2
      clear hw hy
      induction p.ImageWidth with
      | zero => simp
      | succ n ih =>
        rw [List.range_succ, List.flatMap_append, List.filter_append, List.map_append, ih]
        congr 1
        by_cases h : cellAt world y n = 0xFF <;> simp [List.filter_cons, h]
    · intro x acc' hx
      simp only [Option.bind_eq_bind]
      rw [index_eq_cellAt p world hw y x hy hx]
      simp only [Option.some_bind]
      split <;> simp

theorem savePGM_eq (p : Params) (world : Grid) (hw : WF p world) (turn : Nat) :
    savePGM p world turn = some
      ([Out.command IoCommand.ioOutput,
          Out.filename (toString p.ImageWidth ++ "x" ++ toString p.ImageHeight ++ "x" ++
            toString turn)] ++
        cellsRowMajor p world ++
        [Out.command IoCommand.ioCheckIdle, Out.idle,
          Out.event (Event.ImageOutputComplete turn
            (toString p.ImageWidth ++ "x" ++ toString p.ImageHeight ++ "x" ++ toString turn))]) := by
  unfold savePGM
  simp only [Option.bind_eq_bind]
  rw [foldlM_range_append _
    (fun y => (List.range p.ImageWidth).map fun x => Out.output (cellAt world y x))]
  · simp [cellsRowMajor]
  · intro y acc hy
    rw [foldlM_range_append _ (fun x => [Out.output (cellAt world y x)])]
    · congr 2
      clear hw hy
      induction p.ImageWidth with
      | zero => simp
      | succ n ih =>
        rw [List.range_succ, List.flatMap_append, List.map_append, ih]
        simp
    · intro x acc' hx
      rw [index_eq_cellAt p world hw y x hy hx]
      simp

theorem fullGrid_getElem? (h w : Nat) (v : Nat → Nat → Nat) (i : Nat) (hi : i < h) :
    (fullGrid h w v)[i]? = some ((List.range w).map fun j => v i j) := by
  simp [fullGrid, List.getElem?_map, List.getElem?_range hi]

theorem WF_fullGrid (p : Params) (v : Nat → Nat → Nat) :
    WF p (fullGrid p.ImageHeight p.ImageWidth v) := by
  refine ⟨by simp [fullGrid], ?_⟩
  intro row hrow
  simp only [fullGrid, List.mem_map] at hrow
  obtain ⟨i, _, rfl⟩ := hrow
  simp

theorem cellAt_fullGrid (h w : Nat) (v : Nat → Nat → Nat) (y x : Nat) (hy : y < h) (hx : x < w) :
    cellAt (fullGrid h w v) y x = v y x := by
  unfold cellAt index
  rw [fullGrid_getElem? h w v y hy]
  simp [List.getElem?_map, List.getElem?_range hx]

theorem nextRows_eq_fullGrid (p : Params) (world : Grid) (startY height : Nat) :
    nextRows p world startY height
      = fullGrid height p.ImageWidth (fun i j => nextAt p world j (startY + i)) := rfl

theorem index_filledGrid (h w : Nat) (v : Nat → Nat → Nat) (y x : Nat) (hy : y < h) (hx : x < w) :
    index (filledGrid h w v y (x + 1)) y x = some (v y x) := by
  unfold index filledGrid
  simp [List.getElem?_map, List.getElem?_range hy, List.getElem?_range hx]

theorem loadWorld_eq (p : Params) (ioInput : Nat → Nat) :
    loadWorld p ioInput = some (inputGrid p ioInput, loadFlips p ioInput) := by
  unfold loadWorld
  obtain ⟨st, hst, hinv⟩ := foldlM_range_inv
    (fun acc y => (List.range p.ImageWidth).foldlM
      (fun (acc : Grid × List Out) x => do
        let b := ioInput (y * p.ImageWidth + x)
        let world ← setCell acc.1 y x b
        let c ← index world y x
        some (world,
          if c = 0xFF then acc.2 ++ [Out.event (Event.CellFlipped 0 ⟨x, y⟩)] else acc.2))
      acc)
    (fun y acc => acc = (filledGrid p.ImageHeight p.ImageWidth
        (fun y x => ioInput (y * p.ImageWidth + x)) y 0,
      (List.range y).flatMap fun y =>
        ((List.range p.ImageWidth).filter
          fun x => decide (ioInput (y * p.ImageWidth + x) = 0xFF)).map
          fun x => Out.event (Event.CellFlipped 0 ⟨x, y⟩)))
    p.ImageHeight (makeGrid p.ImageHeight p.ImageWidth, [])
    (by show _ = _; rw [filledGrid_zero]; simp)
    (by
      intro y acc hy hacc
      have hacc' : acc = _ := hacc
      subst hacc'
      obtain ⟨st', hst', hinv'⟩ := foldlM_range_inv
        (fun (acc : Grid × List Out) x => do
          let b := ioInput (y * p.ImageWidth + x)
          let world ← setCell acc.1 y x b
          let c ← index world y x
          some (world,
            if c = 0xFF then acc.2 ++ [Out.event (Event.CellFlipped 0 ⟨x, y⟩)] else acc.2))
        (fun k acc => acc = (filledGrid p.ImageHeight p.ImageWidth
            (fun y x => ioInput (y * p.ImageWidth + x)) y k,
          ((List.range y).flatMap fun y =>
            ((List.range p.ImageWidth).filter
              fun x => decide (ioInput (y * p.ImageWidth + x) = 0xFF)).map
              fun x => Out.event (Event.CellFlipped 0 ⟨x, y⟩)) ++
          ((List.range k).filter
              fun x => decide (ioInput (y * p.ImageWidth + x) = 0xFF)).map
              fun x => Out.event (Event.CellFlipped 0 ⟨x, y⟩)))
        p.ImageWidth
        (filledGrid p.ImageHeight p.ImageWidth (fun y x => ioInput (y * p.ImageWidth + x)) y 0,
          (List.range y).flatMap fun y =>
            ((List.range p.ImageWidth).filter
              fun x => decide (ioInput (y * p.ImageWidth + x) = 0xFF)).map
              fun x => Out.event (Event.CellFlipped 0 ⟨x, y⟩))
        (by simp)
        (by
          intro x acc hx hacc
          have hacc' : acc = _ := hacc
          subst hacc'
          refine ⟨_, ?_, rfl⟩
          simp only [Option.bind_eq_bind]
          rw [setCell_filledGrid p.ImageHeight p.ImageWidth
            (fun y x => ioInput (y * p.ImageWidth + x)) y x hy hx]
          simp only [Option.some_bind]
          rw [index_filledGrid _ _ _ _ _ hy hx]
          simp only [Option.some_bind]
          rw [List.range_succ, List.filter_append, List.map_append]
          by_cases h : ioInput (y * p.ImageWidth + x) = 0xFF <;>
            simp [List.filter_cons, h])
      refine ⟨st', hst', ?_⟩
      have hinv'' : st' = _ := hinv'
      show _ = _
      rw [hinv'', filledGrid_next, List.range_succ, List.flatMap_append]
      simp)
  have hinv' : st = _ := hinv
  rw [hst, hinv', filledGrid_full]
  rfl

theorem flatMap_singleton_map {α β : Type} (g : α → β) (l : List α) :
    (l.flatMap fun a => [g a]) = l.map g := by
  induction l with
  | nil => rfl
  | cons a l ih => simp [List.flatMap_cons, ih]

theorem workerRange_fst (p : Params) (sliceHeight w : Nat) :
    (workerRange p sliceHeight w).1 = w * sliceHeight := rfl

theorem workerRange_snd (p : Params) (sliceHeight w : Nat) :
    (workerRange p sliceHeight w).2 =
      if w = p.Threads - 1 then sliceHeight + p.ImageHeight % p.Threads else sliceHeight := rfl

theorem workerRange_end (p : Params) (w : Nat) (hw : w < p.Threads) :
    (workerRange p (p.ImageHeight / p.Threads) w).1 + (workerRange p (p.ImageHeight / p.Threads) w).2
      = covered p (p.ImageHeight / p.Threads) (w + 1) := by
  rw [workerRange_fst, workerRange_snd]
  unfold covered
  have hdm := Nat.div_add_mod p.ImageHeight p.Threads
  by_cases h : w = p.Threads - 1
  · have h' : w + 1 = p.Threads := by omega
    rw [if_pos h, if_pos h']
    have : p.Threads * (p.ImageHeight / p.Threads) = w * (p.ImageHeight / p.Threads)
        + p.ImageHeight / p.Threads := by
      rw [← h', Nat.succ_mul]
    omega
  · have h' : ¬ (w + 1 = p.Threads) := by omega
    rw [if_neg h, if_neg h', Nat.succ_mul]

theorem covered_le (p : Params) (k : Nat) (hk : k ≤ p.Threads) :
    covered p (p.ImageHeight / p.Threads) k ≤ p.ImageHeight := by
  unfold covered
  split
  · exact Nat.le_refl _
  · calc k * (p.ImageHeight / p.Threads) ≤ p.Threads * (p.ImageHeight / p.Threads) :=
        Nat.mul_le_mul_right _ hk
      _ ≤ p.ImageHeight := Nat.mul_div_le _ _

theorem covered_start (p : Params) (sliceHeight : Nat) (k : Nat) (hk : k < p.Threads) :
    covered p sliceHeight k = k * sliceHeight := by
  unfold covered
  rw [if_neg (by omega)]

theorem launchWorkers_eq (p : Params) (world : Grid) (hw : WF p world) (turn : Nat) :
    launchWorkers p (p.ImageHeight / p.Threads) world turn
      = some ((List.range p.Threads).map fun w =>
          (nextRows p world (workerRange p (p.ImageHeight / p.Threads) w).1
              (workerRange p (p.ImageHeight / p.Threads) w).2,
            workerEvents p world (p.ImageHeight / p.Threads) turn w)) := by
  unfold launchWorkers
  rw [foldlM_range_append _ (fun w =>
      [(nextRows p world (workerRange p (p.ImageHeight / p.Threads) w).1
              (workerRange p (p.ImageHeight / p.Threads) w).2,
            workerEvents p world (p.ImageHeight / p.Threads) turn w)])]
  · rw [List.nil_append, flatMap_singleton_map]
  · intro w acc hwT
    have hle := covered_le p (w + 1) hwT
    rw [← workerRange_end p w hwT] at hle
    rw [worker_eq p world hw _ _ turn hle]
    rfl

theorem mergeSlice_spec (width : Nat) (nw : Grid) (startY : Nat) (slice : Grid)
    (hrows : ∀ row ∈ nw, row.length = width) (hs : ∀ row ∈ slice, row.length = width)
    (hfit : startY + slice.length ≤ nw.length) :
    ∃ nw', mergeSlice nw startY slice = some nw' ∧ nw'.length = nw.length ∧
      (∀ row ∈ nw', row.length = width) ∧
      ∀ i, nw'[i]? = if startY ≤ i ∧ i < startY + slice.length then slice[i - startY]? else nw[i]? := by
  unfold mergeSlice
  obtain ⟨g, hg, hlen, hr, hpt⟩ := foldlM_range_inv
    (fun nextWorld y =>
      match nextWorld[startY + y]?, slice[y]? with
      | some dst, some src => some (nextWorld.set (startY + y) (goCopy dst src))
      | _, _ => none)
    (fun y g => g.length = nw.length ∧ (∀ row ∈ g, row.length = width) ∧
      ∀ i, g[i]? = if startY ≤ i ∧ i < startY + y then slice[i - startY]? else nw[i]?)
    slice.length nw
    ⟨rfl, hrows, by intro i; rw [if_neg (by omega)]⟩
    (by
      intro y g hy ⟨hlen, hr, hpt⟩
      have hyl : startY + y < g.length := by omega
      have hdst : g[startY + y]? = some (g[startY + y]) := List.getElem?_eq_getElem hyl
      have hsrc : slice[y]? = some (slice[y]) := List.getElem?_eq_getElem hy
      have hdl : (g[startY + y]).length = width := hr _ (List.getElem_mem _)
      have hsl : (slice[y]).length = width := hs _ (List.getElem_mem _)
      refine ⟨g.set (startY + y) (slice[y]), ?_, by simp [hlen], ?_, ?_⟩
      · simp only [hdst, hsrc]
        rw [goCopy_same _ _ (by omega)]
      · intro row hrow
        rcases List.mem_or_eq_of_mem_set hrow with h | h
        · exact hr row h
        · rw [h]; exact hsl
      · intro i
        rw [List.getElem?_set]
        by_cases h : startY + y = i
        · subst h
          rw [if_pos rfl, if_pos hyl, if_pos (by omega)]
          simp [hsrc]
        · rw [if_neg h, hpt i]
          by_cases h2 : startY ≤ i ∧ i < startY + y
          · rw [if_pos h2, if_pos (by omega)]
          · rw [if_neg h2, if_neg (by omega)])
  exact ⟨g, hg, hlen, hr, hpt⟩

theorem nextRows_getElem? (p : Params) (world : Grid) (startY height i : Nat) (hi : i < height) :
    (nextRows p world startY height)[i]?
      = some ((List.range p.ImageWidth).map fun x => nextAt p world x (startY + i)) := by
  rw [nextRows_eq_fullGrid, fullGrid_getElem? _ _ _ _ hi]

theorem nextRows_rows (p : Params) (world : Grid) (startY height : Nat) :
    ∀ row ∈ nextRows p world startY height, row.length = p.ImageWidth := by
  intro row hrow
  simp only [nextRows, List.mem_map] at hrow
  obtain ⟨i, _, rfl⟩ := hrow
  simp

theorem nextRows_length (p : Params) (world : Grid) (startY height : Nat) :
    (nextRows p world startY height).length = height := by
  simp [nextRows]

theorem WF_nextRows (p : Params) (world : Grid) :
    WF p (nextRows p world 0 p.ImageHeight) :=
  ⟨nextRows_length p world 0 _, nextRows_rows p world 0 _⟩

theorem collectResults_eq (p : Params) (world : Grid) (hT : 1 ≤ p.Threads) (turn : Nat) :
    collectResults p (p.ImageHeight / p.Threads)
      ((List.range p.Threads).map fun w =>
          (nextRows p world (workerRange p (p.ImageHeight / p.Threads) w).1
              (workerRange p (p.ImageHeight / p.Threads) w).2,
            workerEvents p world (p.ImageHeight / p.Threads) turn w))
      (makeGrid p.ImageHeight p.ImageWidth)
      = some (nextRows p world 0 p.ImageHeight) := by
  unfold collectResults
  obtain ⟨g, hg, hlen, hr, hpt⟩ := foldlM_range_inv
    (fun nextWorld w =>
      match ((List.range p.Threads).map fun w =>
          (nextRows p world (workerRange p (p.ImageHeight / p.Threads) w).1
              (workerRange p (p.ImageHeight / p.Threads) w).2,
            workerEvents p world (p.ImageHeight / p.Threads) turn w))[w]? with
      | none => none
      | some r => mergeSlice nextWorld (w * (p.ImageHeight / p.Threads)) r.1)
    (fun k g => g.length = p.ImageHeight ∧ (∀ row ∈ g, row.length = p.ImageWidth) ∧
      ∀ i, i < covered p (p.ImageHeight / p.Threads) k →
        g[i]? = (nextRows p world 0 p.ImageHeight)[i]?)
    p.Threads (makeGrid p.ImageHeight p.ImageWidth)
    ⟨by simp [makeGrid], by
      intro row hrow
      simp only [makeGrid] at hrow
      rw [List.eq_of_mem_replicate hrow]
      simp, by
      intro i hi
      rw [covered_start p _ 0 (by omega)] at hi
      omega⟩
    (by
      intro k g hk ⟨hlen, hr, hpt⟩
      have hend := workerRange_end p k hk
      have hle := covered_le p (k + 1) hk
      rw [workerRange_fst] at hend
      obtain ⟨g', hg', hlen', hr', hpt'⟩ := mergeSlice_spec p.ImageWidth g
        (k * (p.ImageHeight / p.Threads))
        (nextRows p world (workerRange p (p.ImageHeight / p.Threads) k).1
              (workerRange p (p.ImageHeight / p.Threads) k).2)
        hr (nextRows_rows p world _ _) (by rw [nextRows_length]; omega)
      refine ⟨g', ?_, by omega, hr', ?_⟩
      · simp only [List.getElem?_map, List.getElem?_range hk, Option.map_some']
        exact hg'
      · intro i hi
        rw [hpt' i, nextRows_length]
        by_cases h : k * (p.ImageHeight / p.Threads) ≤ i ∧
            i < k * (p.ImageHeight / p.Threads) + (workerRange p (p.ImageHeight / p.Threads) k).2
        · rw [if_pos h, nextRows_getElem? _ _ _ _ _ (by omega),
            nextRows_getElem? _ _ _ _ _ (by omega), workerRange_fst]
          congr 2
          funext x
          congr 1
          omega
        · rw [if_neg h]
          apply hpt
          rw [covered_start p _ k hk]
          omega)
  rw [hg]
  congr 1
  apply List.ext_getElem?
  intro i
  by_cases hi : i < p.ImageHeight
  · apply hpt
    unfold covered
    rw [if_pos rfl]
    exact hi
  · rw [List.getElem?_eq_none (by omega),
      List.getElem?_eq_none (by rw [nextRows_length]; omega)]

theorem turnStep_eq (p : Params) (st : LoopState) (hw : WF p st.world) (hT : 1 ≤ p.Threads)
    (order : List Nat) :
    turnStep p (p.ImageHeight / p.Threads) st order
      = some (⟨nextRows p st.world 0 p.ImageHeight, st.turn + 1, st.paused⟩,
          (turnEvents p st.world (p.ImageHeight / p.Threads) st.turn order ++
            [Event.TurnComplete (st.turn + 1)]).map Out.event) := by
  unfold turnStep
  simp only [Option.bind_eq_bind]
  rw [copyWorld_eq p st.world hw]
  simp only [Option.some_bind]
  rw [launchWorkers_eq p st.world hw]
  simp only [Option.some_bind]
  rw [collectResults_eq p st.world hT]
  simp only [Option.some_bind]
  congr 4
  unfold turnEvents
  congr 1
  funext w
  by_cases h : w < p.Threads
  · simp [List.getElem?_map, List.getElem?_range h, h]
  · rw [if_neg h, List.getElem?_eq_none (by simpa using Nat.le_of_not_lt h)]

theorem wrapIdx_eq_emod (a : Nat) (d : Int) (n : Nat) (hn : 0 < n) (hd : -1 ≤ d) :
    wrapIdx a d n = (((a : Int) + d) % (n : Int)).toNat := by
  unfold wrapIdx
  rw [Int.tmod_eq_emod (by omega) (by omega), Int.add_emod_self]

theorem sumAt_eq_spec (p : Params) (world : Grid) (x y : Nat) (hW : 0 < p.ImageWidth)
    (hH : 0 < p.ImageHeight) :
    sumAt p world x y = toroidalAliveNeighbours p.ImageWidth p.ImageHeight world x y := by
  have hm : mooreOffsets = [(-1, -1), (-1, 0), (-1, 1), (0, -1), (0, 1), (1, -1), (1, 0), (1, 1)] := by
    decide
  unfold toroidalAliveNeighbours sumAt aliveAt
  rw [hm]
  simp only [List.countP_cons, List.countP_nil, decide_eq_true_eq]
  rw [wrapIdx_eq_emod x (-1) _ hW (by decide), wrapIdx_eq_emod x 0 _ hW (by decide),
    wrapIdx_eq_emod x 1 _ hW (by decide), wrapIdx_eq_emod y (-1) _ hH (by decide),
    wrapIdx_eq_emod y 0 _ hH (by decide), wrapIdx_eq_emod y 1 _ hH (by decide)]
  omega

theorem nextAt_eq_conwayNext (p : Params) (world : Grid) (x y : Nat) (hW : 0 < p.ImageWidth)
    (hH : 0 < p.ImageHeight) :
    nextAt p world x y = conwayNext p.ImageWidth p.ImageHeight world x y := by
  unfold nextAt conwayNext nextState
  rw [sumAt_eq_spec p world x y hW hH]
  by_cases h : cellAt world y x = 0xFF
  · simp [h]
  · simp [h]

theorem index_nextRows (p : Params) (world : Grid) (startY height y x : Nat) (hy : y < height)
    (hx : x < p.ImageWidth) :
    index (nextRows p world startY height) y x = some (nextAt p world x (startY + y)) := by
  unfold index
  rw [nextRows_getElem? p world startY height y hy]
  simp [List.getElem?_map, List.getElem?_range hx]

theorem cellAt_nextRows (p : Params) (world : Grid) (startY height y x : Nat) (hy : y < height)
    (hx : x < p.ImageWidth) :
    cellAt (nextRows p world startY height) y x = nextAt p world x (startY + y) := by
  unfold cellAt
  rw [index_nextRows p world startY height y x hy hx]
  rfl

theorem flipsIn_eq_flippedCells (p : Params) (world : Grid) (startY height : Nat) :
    flipsIn p world startY height
      = flippedCells p world startY height (nextRows p world startY height) := by
  unfold flipsIn flippedCells rowFlips
  apply List.flatMap_congr
  intro y hy
  have hy' : y < height := List.mem_range.mp hy
  congr 1
  apply List.filter_congr
  intro x hx
  have hx' : x < p.ImageWidth := List.mem_range.mp hx
  rw [cellAt_nextRows p world startY height y x hy' hx']
  by_cases h : cellAt world (startY + y) x = nextAt p world x (startY + y)
  · simp [h]
  · have h' : ¬ (nextAt p world x (startY + y) = cellAt world (startY + y) x) := fun e => h e.symm
    simp [h, h']

theorem snapshot_eq (p : Params) (st : LoopState) (hw : WF p st.world) :
    snapshot p st = some (saveOuts p st.world st.turn) := by
  unfold snapshot
  simp only [Option.bind_eq_bind]
  rw [copyWorld_eq p st.world hw]
  exact savePGM_eq p st.world hw st.turn

theorem quit_eq (p : Params) (st : LoopState) (hw : WF p st.world) :
    quit p st = some (finalOuts p st) := by
  unfold quit
  simp only [Option.bind_eq_bind]
  rw [aliveCells_eq p st.world hw, copyWorld_eq p st.world hw]
  simp only [Option.some_bind]
  rw [savePGM_eq p st.world hw st.turn]
  rfl

theorem finish_eq (p : Params) (st : LoopState) (hw : WF p st.world) :
    finish p st = some (finalOuts p st) := by
  unfold finish
  simp only [Option.bind_eq_bind]
  rw [aliveCells_eq p st.world hw, copyWorld_eq p st.world hw]
  simp only [Option.some_bind]
  rw [savePGM_eq p st.world hw st.turn]
  rfl

theorem turnStep_committed (p : Params) (st : LoopState) (hw : WF p st.world)
    (hT : 1 ≤ p.Threads) (order : List Nat) :
    turnStep p (p.ImageHeight / p.Threads) st order
      = some (committed p st, turnOuts p st order) :=
  turnStep_eq p st hw hT order

theorem pause_world (st : LoopState) : (pause st).1.world = st.world := by
  unfold pause
  cases st.paused <;> rfl

theorem pause_turn (st : LoopState) : (pause st).1.turn = st.turn := by
  unfold pause
  cases st.paused <;> rfl

theorem pause_outs (st : LoopState) :
    (pause st).2 = [Out.event (Event.StateChange st.turn
      (if st.paused then State.Executing else State.Paused))] := by
  unfold pause
  cases st.paused <;> rfl

theorem controlLoop_induct (p : Params) (hT : 1 ≤ p.Threads)
    (P : List Select → LoopState → Run → Prop)
    (hstop : ∀ st, WF p st.world → st.turn < p.Turns → P [] st ⟨[], st, false⟩)
    (hfinish : ∀ sels st, WF p st.world → ¬ st.turn < p.Turns →
      P sels st ⟨finalOuts p st, st, true⟩)
    (hquit : ∀ rest st, WF p st.world → st.turn < p.Turns →
      P (Select.key 'q' :: rest) st ⟨finalOuts p st, st, true⟩)
    (hsnap : ∀ rest st r, WF p st.world → st.turn < p.Turns → P rest st r →
      P (Select.key 's' :: rest) st { r with outs := saveOuts p st.world st.turn ++ r.outs })
    (hpause : ∀ rest st r, WF p st.world → st.turn < p.Turns → P rest (pause st).1 r →
      P (Select.key 'p' :: rest) st { r with outs := (pause st).2 ++ r.outs })
    (hother : ∀ k rest st r, WF p st.world → st.turn < p.Turns → k ≠ 's' → k ≠ 'q' → k ≠ 'p' →
      P rest st r → P (Select.key k :: rest) st r)
    (hturn : ∀ order rest st r, WF p st.world → st.turn < p.Turns → st.paused = false →
      P rest (committed p st) r →
      P (Select.default order :: rest) st { r with outs := turnOuts p st order ++ r.outs })
    (hidle : ∀ order rest st r, WF p st.world → st.turn < p.Turns → st.paused = true →
      P rest st r → P (Select.default order :: rest) st r) :
    ∀ sels st, WF p st.world →
      ∃ r, controlLoop p (p.ImageHeight / p.Threads) sels st = some r ∧ P sels st r := by
  intro sels
  induction sels with
  | nil =>
    intro st hw
    unfold controlLoop
    by_cases ht : st.turn < p.Turns
    · exact ⟨_, by rw [if_pos ht], hstop st hw ht⟩
    · refine ⟨⟨finalOuts p st, st, true⟩, ?_, hfinish [] st hw ht⟩
      rw [if_neg ht, finish_eq p st hw]
      rfl
  | cons sel rest ih =>
    intro st hw
    unfold controlLoop
    by_cases ht : st.turn < p.Turns
    · rw [if_pos ht]
      cases sel with
      | key k =>
        simp only
        by_cases hs : k = 's'
        · obtain ⟨r, hr, hP⟩ := ih st hw
          subst hs
          refine ⟨_, ?_, hsnap rest st r hw ht hP⟩
          rw [if_pos rfl, snapshot_eq p st hw, hr]
          rfl
        · rw [if_neg hs]
          by_cases hq : k = 'q'
          · subst hq
            refine ⟨_, ?_, hquit rest st hw ht⟩
            rw [if_pos rfl, quit_eq p st hw]
            rfl
          · rw [if_neg hq]
            by_cases hp : k = 'p'
            · have hw' : WF p (pause st).1.world := by
                rw [pause_world]; exact hw
              obtain ⟨r, hr, hP⟩ := ih (pause st).1 hw'
              subst hp
              refine ⟨_, ?_, hpause rest st r hw ht hP⟩
              rw [if_pos rfl, hr]
              rfl
            · rw [if_neg hp]
              obtain ⟨r, hr, hP⟩ := ih st hw
              exact ⟨r, hr, hother k rest st r hw ht hs hq hp hP⟩
      | default order =>
        simp only
        by_cases hpa : st.paused = false
        · have hw' : WF p (committed p st).world := WF_nextRows p st.world
          obtain ⟨r, hr, hP⟩ := ih (committed p st) hw'
          refine ⟨_, ?_, hturn order rest st r hw ht hpa hP⟩
          rw [if_pos (by simp [hpa]), turnStep_committed p st hw hT order]
          simp only [Option.bind_eq_bind, Option.some_bind]
          rw [hr]
          rfl
        · rw [if_neg (by simp [hpa])]
          obtain ⟨r, hr, hP⟩ := ih st hw
          exact ⟨r, hr, hidle order rest st r hw ht (by simpa using hpa) hP⟩
    · refine ⟨⟨finalOuts p st, st, true⟩, ?_, hfinish _ st hw ht⟩
      rw [if_neg ht, finish_eq p st hw]
      rfl

theorem flippedCells_mem (p : Params) (world : Grid) (startY height : Nat) (nextSlice : Grid)
    (c : Cell) :
    c ∈ flippedCells p world startY height nextSlice ↔
      ∃ y x, y < height ∧ x < p.ImageWidth ∧ c = ⟨x, startY + y⟩ ∧
        cellAt nextSlice y x ≠ cellAt world (startY + y) x := by
  unfold flippedCells
  simp only [List.mem_flatMap, List.mem_map, List.mem_filter, List.mem_range,
    decide_eq_true_eq]
  constructor
  · rintro ⟨y, hy, x, ⟨hx, hne⟩, rfl⟩
    exact ⟨y, x, hy, hx, rfl, hne⟩
  · rintro ⟨y, x, hy, hx, rfl, hne⟩
    exact ⟨y, hy, x, ⟨hx, hne⟩, rfl⟩

theorem flippedCells_rowMajor (p : Params) (world : Grid) (startY height : Nat)
    (nextSlice : Grid) :
    (flippedCells p world startY height nextSlice).Pairwise rowMajorLt := by
  unfold flippedCells
  rw [List.pairwise_flatMap]
  constructor
  · intro y _
    rw [List.pairwise_map]
    apply List.Pairwise.filter
    exact (List.pairwise_lt_range _).imp (fun h => Or.inr ⟨rfl, h⟩)
  · refine (List.pairwise_lt_range _).imp ?_
    intro a b hab c hc d hd
    simp only [List.mem_map] at hc hd
    obtain ⟨_, _, rfl⟩ := hc
    obtain ⟨_, _, rfl⟩ := hd
    exact Or.inl (by show startY + a < startY + b; omega)

theorem wrapIdx_ne (a : Nat) (d : Int) (n : Nat) (hn : 2 ≤ n) (ha : a < n)
    (hd : d = 1 ∨ d = -1) : wrapIdx a d n ≠ a := by
  unfold wrapIdx
  rw [Int.tmod_eq_emod (by omega) (by omega)]
  rcases hd with rfl | rfl
  · rw [Int.add_emod_self]
    by_cases h : a + 1 < n
    · rw [Int.emod_eq_of_lt (by omega) (by omega)]
      omega
    · have : (a : Int) + 1 = (n : Int) := by omega
      rw [this, Int.emod_self]
      simp
      omega
  · by_cases h : 1 ≤ a
    · rw [Int.add_emod_self, Int.emod_eq_of_lt (by omega) (by omega)]
      omega
    · rw [Int.emod_eq_of_lt (by omega) (by omega)]
      omega

theorem aliveAt_congr (p : Params) (w1 w2 : Grid) (x y : Nat) (dy dx : Int)
    (hW : 2 ≤ p.ImageWidth) (hH : 2 ≤ p.ImageHeight) (hx : x < p.ImageWidth)
    (hy : y < p.ImageHeight) (hd : differOnlyAt w1 w2 x y)
    (hne : (dy = 1 ∨ dy = -1) ∨ (dx = 1 ∨ dx = -1)) :
    aliveAt p w1 x y dy dx = aliveAt p w2 x y dy dx := by
  unfold aliveAt
  rw [hd _ _ (by
    rintro ⟨h1, h2⟩
    rcases hne with h | h
    · exact wrapIdx_ne y dy _ hH hy h h1
    · exact wrapIdx_ne x dx _ hW hx h h2)]

theorem differOnlyAt_single (a b : Nat) : differOnlyAt [[a]] [[b]] 0 0 := by
  intro i j hne
  match i, j with
  | 0, 0 => exact absurd ⟨rfl, rfl⟩ hne
  | 0, j + 1 => rfl
  | i + 1, _ => rfl

theorem covered_zero (p : Params) (hT : 1 ≤ p.Threads) (s : Nat) : covered p s 0 = 0 := by
  rw [covered_start p s 0 (by omega)]
  simp

theorem covered_mono (p : Params) (a b : Nat) (hab : a ≤ b)
    (hb : b ≤ p.Threads) :
    covered p (p.ImageHeight / p.Threads) a ≤ covered p (p.ImageHeight / p.Threads) b := by
  by_cases h : b = p.Threads
  · have : covered p (p.ImageHeight / p.Threads) b = p.ImageHeight := by
      unfold covered; rw [if_pos h]
    rw [this]
    exact covered_le p a (by omega)
  · rw [covered_start p _ a (by omega), covered_start p _ b (by omega)]
    exact Nat.mul_le_mul_right _ hab

theorem inRange_iff (p : Params) (w y : Nat) (hw : w < p.Threads) :
    inRange (workerRange p (p.ImageHeight / p.Threads) w) y ↔
      covered p (p.ImageHeight / p.Threads) w ≤ y ∧
        y < covered p (p.ImageHeight / p.Threads) (w + 1) := by
  unfold inRange
  rw [workerRange_end p w hw, workerRange_fst, covered_start p _ w hw]

theorem heights_sum (p : Params) (hT : 1 ≤ p.Threads) (k : Nat) (hk : k ≤ p.Threads) :
    ((List.range k).map fun w => (workerRange p (p.ImageHeight / p.Threads) w).2).sum
      = covered p (p.ImageHeight / p.Threads) k := by
  induction k with
  | zero => simp [covered_zero p hT]
  | succ k ih =>
    rw [List.sum_range_succ, ih (by omega), ← workerRange_end p k (by omega),
      workerRange_fst, covered_start p _ k (by omega)]

theorem range_exists (p : Params) (hT : 1 ≤ p.Threads) (k : Nat) (hk : k ≤ p.Threads) (y : Nat)
    (hy : y < covered p (p.ImageHeight / p.Threads) k) :
    ∃ w, w < k ∧ inRange (workerRange p (p.ImageHeight / p.Threads) w) y := by
  induction k with
  | zero => rw [covered_zero p hT] at hy; omega
  | succ k ih =>
    by_cases h : y < covered p (p.ImageHeight / p.Threads) k
    · obtain ⟨w, hw, hin⟩ := ih (by omega) h
      exact ⟨w, by omega, hin⟩
    · exact ⟨k, by omega, (inRange_iff p k y (by omega)).mpr ⟨by omega, hy⟩⟩

theorem range_disjoint (p : Params) (w1 w2 y : Nat) (h1 : w1 < p.Threads)
    (h2 : w2 < p.Threads) (hlt : w1 < w2)
    (hi1 : inRange (workerRange p (p.ImageHeight / p.Threads) w1) y)
    (hi2 : inRange (workerRange p (p.ImageHeight / p.Threads) w2) y) : False := by
  rw [inRange_iff p w1 y h1] at hi1
  rw [inRange_iff p w2 y h2] at hi2
  have := covered_mono p (w1 + 1) w2 (by omega) (by omega)
  omega

theorem range_unique (p : Params) (w1 w2 y : Nat) (h1 : w1 < p.Threads)
    (h2 : w2 < p.Threads)
    (hi1 : inRange (workerRange p (p.ImageHeight / p.Threads) w1) y)
    (hi2 : inRange (workerRange p (p.ImageHeight / p.Threads) w2) y) : w1 = w2 := by
  rcases Nat.lt_trichotomy w1 w2 with h | h | h
  · exact (range_disjoint p w1 w2 y h1 h2 h hi1 hi2).elim
  · exact h
  · exact (range_disjoint p w2 w1 y h2 h1 h hi2 hi1).elim

theorem filterMap_nil_of_forall {α β : Type} (f : α → Option β) (l : List α)
    (h : ∀ a ∈ l, f a = none) : l.filterMap f = [] := by
  induction l with
  | nil => rfl
  | cons a l ih =>
    rw [List.filterMap_cons, h a (List.mem_cons_self _ _)]
    exact ih (fun b hb => h b (List.mem_cons_of_mem _ hb))

theorem mem_cellsRowMajor (p : Params) (world : Grid) (o : Out)
    (h : o ∈ cellsRowMajor p world) : ∃ b, o = Out.output b := by
  unfold cellsRowMajor at h
  simp only [List.mem_flatMap, List.mem_map] at h
  obtain ⟨y, _, x, _, rfl⟩ := h
  exact ⟨_, rfl⟩

theorem mem_loadFlips (p : Params) (ioInput : Nat → Nat) (o : Out)
    (h : o ∈ loadFlips p ioInput) : ∃ c, o = Out.event (Event.CellFlipped 0 c) := by
  unfold loadFlips at h
  simp only [List.mem_flatMap, List.mem_map] at h
  obtain ⟨y, _, x, _, rfl⟩ := h
  exact ⟨_, rfl⟩

theorem mem_turnEvents (p : Params) (world : Grid) (s turn : Nat) (order : List Nat) (e : Event)
    (h : e ∈ turnEvents p world s turn order) : ∃ t cs, e = Event.CellsFlipped t cs := by
  unfold turnEvents at h
  simp only [List.mem_flatMap] at h
  obtain ⟨w, _, hw⟩ := h
  split at hw
  · unfold workerEvents at hw
    split at hw
    · rw [List.mem_singleton] at hw
      exact ⟨_, _, hw⟩
    · cases hw
  · cases hw

theorem turnCompletes_append (a b : List Out) :
    turnCompletes (a ++ b) = turnCompletes a ++ turnCompletes b := by
  unfold turnCompletes
  rw [List.filterMap_append]

theorem finalReports_append (a b : List Out) :
    finalReports (a ++ b) = finalReports a ++ finalReports b := by
  unfold finalReports
  rw [List.filterMap_append]

theorem turnCompletes_cells (p : Params) (world : Grid) :
    turnCompletes (cellsRowMajor p world) = [] := by
  apply filterMap_nil_of_forall
  intro o ho
  obtain ⟨b, rfl⟩ := mem_cellsRowMajor p world o ho
  rfl

theorem finalReports_cells (p : Params) (world : Grid) :
    finalReports (cellsRowMajor p world) = [] := by
  apply filterMap_nil_of_forall
  intro o ho
  obtain ⟨b, rfl⟩ := mem_cellsRowMajor p world o ho
  rfl

theorem turnCompletes_saveOuts (p : Params) (world : Grid) (turn : Nat) :
    turnCompletes (saveOuts p world turn) = [] := by
  unfold saveOuts
  rw [turnCompletes_append, turnCompletes_append, turnCompletes_cells]
  rfl

theorem finalReports_saveOuts (p : Params) (world : Grid) (turn : Nat) :
    finalReports (saveOuts p world turn) = [] := by
  unfold saveOuts
  rw [finalReports_append, finalReports_append, finalReports_cells]
  rfl

theorem turnCompletes_finalOuts (p : Params) (st : LoopState) :
    turnCompletes (finalOuts p st) = [] := by
  unfold finalOuts
  rw [turnCompletes_append, turnCompletes_append, turnCompletes_saveOuts]
  rfl

theorem finalReports_finalOuts (p : Params) (st : LoopState) :
    finalReports (finalOuts p st) = [(st.turn, aliveList p st.world)] := by
  unfold finalOuts
  rw [finalReports_append, finalReports_append, finalReports_saveOuts]
  rfl

theorem turnCompletes_pause (st : LoopState) : turnCompletes (pause st).2 = [] := by
  rw [pause_outs]
  rfl

theorem finalReports_pause (st : LoopState) : finalReports (pause st).2 = [] := by
  rw [pause_outs]
  rfl

theorem turnCompletes_turnOuts (p : Params) (st : LoopState) (order : List Nat) :
    turnCompletes (turnOuts p st order) = [st.turn + 1] := by
  unfold turnOuts
  rw [List.map_append, turnCompletes_append]
  have : turnCompletes ((turnEvents p st.world (p.ImageHeight / p.Threads) st.turn order).map
      Out.event) = [] := by
    apply filterMap_nil_of_forall
    intro o ho
    rw [List.mem_map] at ho
    obtain ⟨e, he, rfl⟩ := ho
    obtain ⟨t, cs, rfl⟩ := mem_turnEvents _ _ _ _ _ e he
    rfl
  rw [this]
  rfl

theorem finalReports_turnOuts (p : Params) (st : LoopState) (order : List Nat) :
    finalReports (turnOuts p st order) = [] := by
  unfold turnOuts
  apply filterMap_nil_of_forall
  intro o ho
  rw [List.mem_map] at ho
  obtain ⟨e, he, rfl⟩ := ho
  rw [List.mem_append] at he
  rcases he with he | he
  · obtain ⟨t, cs, rfl⟩ := mem_turnEvents _ _ _ _ _ e he
    rfl
  · rw [List.mem_singleton] at he
    subst he
    rfl

theorem turnCompletes_startOuts (p : Params) (ioInput : Nat → Nat) :
    turnCompletes (startOuts p ioInput) = [] := by
  unfold startOuts
  rw [turnCompletes_append, turnCompletes_append]
  have : turnCompletes (loadFlips p ioInput) = [] := by
    apply filterMap_nil_of_forall
    intro o ho
    obtain ⟨c, rfl⟩ := mem_loadFlips p ioInput o ho
    rfl
  rw [this]
  rfl

theorem finalReports_startOuts (p : Params) (ioInput : Nat → Nat) :
    finalReports (startOuts p ioInput) = [] := by
  unfold startOuts
  rw [finalReports_append, finalReports_append]
  have : finalReports (loadFlips p ioInput) = [] := by
    apply filterMap_nil_of_forall
    intro o ho
    obtain ⟨c, rfl⟩ := mem_loadFlips p ioInput o ho
    rfl
  rw [this]
  rfl

theorem distributor_eq (p : Params) (ioInput : Nat → Nat) (sels : List Select)
    (hT : 1 ≤ p.Threads) (r : Run)
    (h : controlLoop p (p.ImageHeight / p.Threads) sels ⟨inputGrid p ioInput, 0, false⟩ = some r) :
    distributor p ioInput sels = some { r with outs := startOuts p ioInput ++ r.outs } := by
  unfold distributor
  simp only [Option.bind_eq_bind]
  rw [loadWorld_eq]
  simp only [Option.some_bind, goDiv]
  rw [if_neg (by omega)]
  simp only [Option.some_bind]
  rw [h]
  simp [startOuts]

theorem nextState_sentinel (current sum : Nat) :
    nextState current sum = 0x00 ∨ nextState current sum = 0xFF := by
  unfold nextState
  split <;> split <;> simp

theorem Sentinel_nextRows (p : Params) (world : Grid) (startY height : Nat) :
    Sentinel (nextRows p world startY height) := by
  intro row hrow c hc
  simp only [nextRows, List.mem_map] at hrow
  obtain ⟨y, _, rfl⟩ := hrow
  rw [List.mem_map] at hc
  obtain ⟨x, _, rfl⟩ := hc
  exact nextState_sentinel _ _

theorem range_map_shift (a n : Nat) :
    (List.range (n + 1)).map (fun i => a + i) = a :: (List.range n).map (fun i => a + 1 + i) := by
  rw [List.range_succ_eq_map, List.map_cons, List.map_map]
  congr 1
  apply List.map_congr_left
  intro i _
  simp only [Function.comp, Nat.succ_eq_add_one]
  omega

theorem cellAt_makeGrid (h w y x : Nat) : cellAt (makeGrid h w) y x = 0 := by
  unfold cellAt index makeGrid
  rw [List.getElem?_replicate]
  by_cases hy : y < h
  · rw [if_pos hy]
    simp only
    rw [List.getElem?_replicate]
    by_cases hx : x < w
    · rw [if_pos hx]; rfl
    · rw [if_neg hx]; rfl
  · rw [if_neg hy]; rfl

theorem nextAt_dead (p : Params) (h w x y : Nat) : nextAt p (makeGrid h w) x y = 0 := by
  unfold nextAt sumAt aliveAt
  simp only [cellAt_makeGrid]
  rfl

theorem fullGrid_zero (h w : Nat) : fullGrid h w (fun _ _ => 0) = makeGrid h w := by
  rw [← filledGrid_full, ← filledGrid_zero h w (fun _ _ => 0)]
  unfold filledGrid
  apply List.map_congr_left
  intro i _
  apply List.map_congr_left
  intro j _
  simp

theorem nextRows_dead (p : Params) (h w startY height : Nat) :
    nextRows p (makeGrid h w) startY height = makeGrid height p.ImageWidth := by
  have hv : (fun i j => nextAt p (makeGrid h w) j (startY + i)) = fun _ _ => 0 := by
    funext i j
    exact nextAt_dead p h w j (startY + i)
  rw [nextRows_eq_fullGrid, hv, fullGrid_zero]

theorem flipsIn_dead (p : Params) (h w startY height : Nat) :
    flipsIn p (makeGrid h w) startY height = [] := by
  unfold flipsIn rowFlips
  rw [List.flatMap_eq_nil_iff]
  intro y _
  rw [List.map_eq_nil_iff, List.filter_eq_nil_iff]
  intro x _
  rw [cellAt_makeGrid, nextAt_dead]
  simp

theorem turnEvents_dead (p : Params) (h w s turn : Nat) (order : List Nat) :
    turnEvents p (makeGrid h w) s turn order = [] := by
  unfold turnEvents
  rw [List.flatMap_eq_nil_iff]
  intro k _
  split
  · unfold workerEvents
    rw [flipsIn_dead]
    rfl
  · rfl

theorem aliveList_dead (p : Params) (h w : Nat) : aliveList p (makeGrid h w) = [] := by
  unfold aliveList
  rw [List.flatMap_eq_nil_iff]
  intro y _
  rw [List.map_eq_nil_iff, List.filter_eq_nil_iff]
  intro x _
  rw [cellAt_makeGrid]
  simp

theorem index_bound (p : Params) (y x : Nat) (hy : y < p.ImageHeight) (hx : x < p.ImageWidth) :
    y * p.ImageWidth + x < p.ImageHeight * p.ImageWidth := by
  calc y * p.ImageWidth + x < y * p.ImageWidth + p.ImageWidth := by omega
    _ = (y + 1) * p.ImageWidth := (Nat.succ_mul _ _).symm
    _ ≤ p.ImageHeight * p.ImageWidth := Nat.mul_le_mul_right _ hy

theorem inputGrid_dead (p : Params) (ioInput : Nat → Nat)
    (hdead : ∀ k, k < p.ImageHeight * p.ImageWidth → ioInput k = 0x00) :
    inputGrid p ioInput = makeGrid p.ImageHeight p.ImageWidth := by
  rw [← fullGrid_zero]
  unfold inputGrid fullGrid
  apply List.map_congr_left
  intro y hy
  apply List.map_congr_left
  intro x hx
  exact hdead _ (index_bound p y x (List.mem_range.mp hy) (List.mem_range.mp hx))

theorem loadFlips_dead (p : Params) (ioInput : Nat → Nat)
    (hdead : ∀ k, k < p.ImageHeight * p.ImageWidth → ioInput k = 0x00) :
    loadFlips p ioInput = [] := by
  unfold loadFlips
  rw [List.flatMap_eq_nil_iff]
  intro y hy
  rw [List.map_eq_nil_iff, List.filter_eq_nil_iff]
  intro x hx
  rw [hdead _ (index_bound p y x (List.mem_range.mp hy) (List.mem_range.mp hx))]
  simp

theorem isFlip_saveOuts (p : Params) (world : Grid) (turn : Nat) :
    ∀ o ∈ saveOuts p world turn, isFlip o = false := by
  intro o ho
  unfold saveOuts at ho
  simp only [List.mem_append, List.mem_cons, List.mem_singleton, List.not_mem_nil, or_false] at ho
  rcases ho with ((rfl | rfl) | h) | (rfl | rfl | rfl)
  · rfl
  · rfl
  · obtain ⟨b, rfl⟩ := mem_cellsRowMajor p world o h
    rfl
  · rfl
  · rfl
  · rfl

theorem isFlip_finalOuts (p : Params) (st : LoopState) :
    ∀ o ∈ finalOuts p st, isFlip o = false := by
  intro o ho
  unfold finalOuts at ho
  simp only [List.mem_append, List.mem_cons, List.mem_singleton, List.not_mem_nil, or_false] at ho
  rcases ho with ((rfl | rfl | rfl) | h) | (rfl | rfl)
  · rfl
  · rfl
  · rfl
  · exact isFlip_saveOuts p st.world st.turn o h
  · rfl
  · rfl

theorem isFlip_pause (st : LoopState) : ∀ o ∈ (pause st).2, isFlip o = false := by
  intro o ho
  rw [pause_outs, List.mem_singleton] at ho
  subst ho
  rfl

theorem turnOuts_dead (p : Params) (turn : Nat) (paused : Bool) (order : List Nat) :
    turnOuts p ⟨makeGrid p.ImageHeight p.ImageWidth, turn, paused⟩ order
      = [Out.event (Event.TurnComplete (turn + 1))] := by
  unfold turnOuts
  rw [turnEvents_dead]
  rfl

theorem forall_mem_append {α : Type} (Q : α → Prop) (a b : List α) (ha : ∀ o ∈ a, Q o)
    (hb : ∀ o ∈ b, Q o) : ∀ o ∈ a ++ b, Q o := by
  intro o ho
  rcases List.mem_append.mp ho with h | h
  · exact ha o h
  · exact hb o h

theorem controlLoop_dead (p : Params) (hT : 1 ≤ p.Threads) (sels : List Select)
    (st : LoopState) (hst : st.world = makeGrid p.ImageHeight p.ImageWidth) :
    ∃ r, controlLoop p (p.ImageHeight / p.Threads) sels st = some r ∧
      r.final.world = makeGrid p.ImageHeight p.ImageWidth ∧
      (∀ o ∈ r.outs, isFlip o = false) ∧
      (∀ rep ∈ finalReports r.outs, rep.2 = []) ∧
      (r.returned = true → finalReports r.outs = [(r.final.turn, [])]) := by
  have hw : WF p st.world := by
    rw [hst, ← fullGrid_zero]
    exact WF_fullGrid p _
  obtain ⟨r, hr, hP⟩ := controlLoop_induct p hT
    (fun _ st r => st.world = makeGrid p.ImageHeight p.ImageWidth →
      (r.final.world = makeGrid p.ImageHeight p.ImageWidth ∧
      (∀ o ∈ r.outs, isFlip o = false) ∧
      (∀ rep ∈ finalReports r.outs, rep.2 = []) ∧
      (r.returned = true → finalReports r.outs = [(r.final.turn, [])])))
    (fun st _ _ hd => ⟨hd, by simp, by simp [finalReports], by simp⟩)
    (fun _ st _ _ hd => by
      refine ⟨hd, isFlip_finalOuts p st, ?_, ?_⟩
      · show ∀ rep ∈ finalReports (finalOuts p st), rep.2 = []
        rw [finalReports_finalOuts, hd, aliveList_dead]
        simp
      · intro _
        show finalReports (finalOuts p st) = _
        rw [finalReports_finalOuts, hd, aliveList_dead])
    (fun _ st _ _ hd => by
      refine ⟨hd, isFlip_finalOuts p st, ?_, ?_⟩
      · show ∀ rep ∈ finalReports (finalOuts p st), rep.2 = []
        rw [finalReports_finalOuts, hd, aliveList_dead]
        simp
      · intro _
        show finalReports (finalOuts p st) = _
        rw [finalReports_finalOuts, hd, aliveList_dead])
    (fun _ st r _ _ h hd => by
      obtain ⟨h1, h2, h3, h4⟩ := h hd
      refine ⟨h1, forall_mem_append _ _ _ (isFlip_saveOuts p st.world st.turn) h2, ?_, ?_⟩
      · show ∀ rep ∈ finalReports (saveOuts p st.world st.turn ++ r.outs), rep.2 = []
        rw [finalReports_append, finalReports_saveOuts, List.nil_append]
        exact h3
      · intro hret
        show finalReports (saveOuts p st.world st.turn ++ r.outs) = _
        rw [finalReports_append, finalReports_saveOuts, List.nil_append]
        exact h4 hret)
    (fun _ st r _ _ h hd => by
      beta_reduce at h
      rw [pause_world] at h
      obtain ⟨h1, h2, h3, h4⟩ := h hd
      refine ⟨h1, forall_mem_append _ _ _ (isFlip_pause st) h2, ?_, ?_⟩
      · show ∀ rep ∈ finalReports ((pause st).2 ++ r.outs), rep.2 = []
        rw [finalReports_append, finalReports_pause, List.nil_append]
        exact h3
      · intro hret
        show finalReports ((pause st).2 ++ r.outs) = _
        rw [finalReports_append, finalReports_pause, List.nil_append]
        exact h4 hret)
    (fun _ _ _ _ _ _ _ _ _ h => h)
    (fun order _ st r _ _ _ h hd => by
      have hc : (committed p st).world = makeGrid p.ImageHeight p.ImageWidth := by
        show nextRows p st.world 0 p.ImageHeight = _
        rw [hd, nextRows_dead]
      obtain ⟨h1, h2, h3, h4⟩ := h hc
      have ho : turnOuts p st order = [Out.event (Event.TurnComplete (st.turn + 1))] := by
        have := turnOuts_dead p st.turn st.paused order
        rw [← hd] at this
        exact this
      refine ⟨h1, ?_, ?_, ?_⟩
      · show ∀ o ∈ turnOuts p st order ++ r.outs, isFlip o = false
        rw [ho]
        intro o hmem
        rcases List.mem_append.mp hmem with h | h
        · rw [List.mem_singleton] at h
          subst h
          rfl
        · exact h2 o h
      · show ∀ rep ∈ finalReports (turnOuts p st order ++ r.outs), rep.2 = []
        rw [finalReports_append, finalReports_turnOuts, List.nil_append]
        exact h3
      · intro hret
        show finalReports (turnOuts p st order ++ r.outs) = _
        rw [finalReports_append, finalReports_turnOuts, List.nil_append]
        exact h4 hret)
    (fun _ _ _ _ _ _ _ h => h)
    sels st hw
  exact ⟨r, hr, hP hst⟩

theorem controlLoop_terminates (p : Params) (hT : 1 ≤ p.Threads) (orders : List (List Nat))
    (st : LoopState) (hw : WF p st.world) (hp : st.paused = false) (hle : st.turn ≤ p.Turns)
    (hlen : p.Turns ≤ st.turn + orders.length) :
    ∃ r, controlLoop p (p.ImageHeight / p.Threads) (orders.map Select.default) st = some r ∧
      r.returned = true ∧ r.final.turn = p.Turns := by
  induction orders generalizing st with
  | nil =>
    have ht : ¬ st.turn < p.Turns := by
      simp only [List.length_nil] at hlen
      omega
    refine ⟨⟨finalOuts p st, st, true⟩, ?_, rfl, ?_⟩
    · simp only [List.map_nil]
      unfold controlLoop
      rw [if_neg ht, finish_eq p st hw]
      rfl
    · show st.turn = p.Turns
      simp only [List.length_nil] at hlen
      omega
  | cons order rest ih =>
    by_cases ht : st.turn < p.Turns
    · obtain ⟨r, hr, h1, h2⟩ := ih (committed p st) (WF_nextRows p st.world) hp
        (by show st.turn + 1 ≤ p.Turns; omega)
        (by
          show p.Turns ≤ st.turn + 1 + rest.length
          simp only [List.length_cons] at hlen
          omega)
      refine ⟨{ r with outs := turnOuts p st order ++ r.outs }, ?_, h1, h2⟩
      simp only [List.map_cons]
      unfold controlLoop
      rw [if_pos ht]
      simp only
      rw [if_pos (by simp [hp]), turnStep_committed p st hw hT order]
      simp only [Option.bind_eq_bind, Option.some_bind]
      rw [hr]
      rfl
    · refine ⟨⟨finalOuts p st, st, true⟩, ?_, rfl, ?_⟩
      · simp only [List.map_cons]
        unfold controlLoop
        rw [if_neg ht, finish_eq p st hw]
        rfl
      · show st.turn = p.Turns
        omega

theorem controlLoop_key (p : Params) (s : Nat) (k : Char) (rest : List Select)
    (st : LoopState) (ht : st.turn < p.Turns) :
    controlLoop p s (Select.key k :: rest) st =
      (if k = 's' then do
        let outs ← snapshot p st
        let r ← controlLoop p s rest st
        some { r with outs := outs ++ r.outs }
      else if k = 'q' then do
        let outs ← quit p st
        some ⟨outs, st, true⟩
      else if k = 'p' then do
        let r ← controlLoop p s rest (pause st).1
        some { r with outs := (pause st).2 ++ r.outs }
      else controlLoop p s rest st) := by
  conv_lhs => unfold controlLoop
  rw [if_pos ht]

theorem controlLoop_default (p : Params) (s : Nat) (order : List Nat) (rest : List Select)
    (st : LoopState) (ht : st.turn < p.Turns) :
    controlLoop p s (Select.default order :: rest) st =
      (if !st.paused then do
        let step ← turnStep p s st order
        let r ← controlLoop p s rest step.1
        some { r with outs := step.2 ++ r.outs }
      else controlLoop p s rest st) := by
  conv_lhs => unfold controlLoop
  rw [if_pos ht]

theorem controlLoop_limit (p : Params) (s : Nat) (sels : List Select) (st : LoopState)
    (ht : ¬ st.turn < p.Turns) :
    controlLoop p s sels st = (do
      let outs ← finish p st
      some ⟨outs, st, true⟩) := by
  cases sels with
  | nil =>
    conv_lhs => unfold controlLoop
    rw [if_neg ht]
  | cons sel rest =>
    conv_lhs => unfold controlLoop
    rw [if_neg ht]

theorem controlLoop_nil (p : Params) (s : Nat) (st : LoopState) (ht : st.turn < p.Turns) :
    controlLoop p s [] st = some ⟨[], st, false⟩ := by
  conv_lhs => unfold controlLoop
  rw [if_pos ht]

theorem map_prepend_nil (o : Option Run) :
    (o.map fun r' => { r' with outs := [] ++ r'.outs }) = o := by
  cases o with
  | none => rfl
  | some r => rfl

theorem map_prepend_append (o : Option Run) (a b : List Out) :
    ((o.map fun r' => { r' with outs := b ++ r'.outs }).bind
        fun r => some { r with outs := a ++ r.outs })
      = o.map fun r' => { r' with outs := (a ++ b) ++ r'.outs } := by
  cases o with
  | none => rfl
  | some r => simp [List.append_assoc]

theorem controlLoop_append (p : Params) (s : Nat) (pre : List Select) :
    ∀ (st : LoopState) (r : Run), controlLoop p s pre st = some r → r.returned = false →
      ∀ more, controlLoop p s (pre ++ more) st
        = (controlLoop p s more r.final).map fun r' => { r' with outs := r.outs ++ r'.outs } := by
  induction pre with
  | nil =>
    intro st r h hret more
    by_cases ht : st.turn < p.Turns
    · rw [controlLoop_nil p s st ht] at h
      cases h
      rw [List.nil_append]
      exact (map_prepend_nil _).symm
    · rw [controlLoop_limit p s _ st ht] at h
      simp only [Option.bind_eq_bind, Option.bind_eq_some] at h
      obtain ⟨outs, _, h⟩ := h
      cases h
      cases hret
  | cons sel rest ih =>
    intro st r h hret more
    by_cases ht : st.turn < p.Turns
    · rw [List.cons_append]
      cases sel with
      | key k =>
        rw [controlLoop_key p s k _ st ht] at h ⊢
        by_cases hs : k = 's'
        · rw [if_pos hs] at h ⊢
          simp only [Option.bind_eq_bind, Option.bind_eq_some] at h
          obtain ⟨outs, ho, r0, hr0, h⟩ := h
          cases h
          simp only [Option.bind_eq_bind, ho, Option.some_bind]
          rw [ih st r0 hr0 hret more]
          exact map_prepend_append _ _ _
        · rw [if_neg hs] at h ⊢
          by_cases hq : k = 'q'
          · rw [if_pos hq] at h
            simp only [Option.bind_eq_bind, Option.bind_eq_some] at h
            obtain ⟨outs, _, h⟩ := h
            cases h
            cases hret
          · rw [if_neg hq] at h ⊢
            by_cases hp : k = 'p'
            · rw [if_pos hp] at h ⊢
              simp only [Option.bind_eq_bind, Option.bind_eq_some] at h
              obtain ⟨r0, hr0, h⟩ := h
              cases h
              rw [ih (pause st).1 r0 hr0 hret more]
              exact map_prepend_append _ _ _
            · rw [if_neg hp] at h ⊢
              exact ih st r h hret more
      | default order =>
        rw [controlLoop_default p s order _ st ht] at h ⊢
        by_cases hpa : (!st.paused) = true
        · rw [if_pos hpa] at h ⊢
          simp only [Option.bind_eq_bind, Option.bind_eq_some] at h
          obtain ⟨step, hstep, r0, hr0, h⟩ := h
          cases h
          simp only [Option.bind_eq_bind, hstep, Option.some_bind]
          rw [ih step.1 r0 hr0 hret more]
          exact map_prepend_append _ _ _
        · rw [if_neg hpa] at h ⊢
          exact ih st r h hret more
    · rw [controlLoop_limit p s _ st ht] at h
      simp only [Option.bind_eq_bind, Option.bind_eq_some] at h
      obtain ⟨outs, _, h⟩ := h
      cases h
      cases hret

theorem distributor_map (p : Params) (ioInput : Nat → Nat) (sels : List Select)
    (hT : 1 ≤ p.Threads) :
    distributor p ioInput sels =
      (controlLoop p (p.ImageHeight / p.Threads) sels ⟨inputGrid p ioInput, 0, false⟩).map
        fun r => { r with outs := startOuts p ioInput ++ r.outs } := by
  cases h : controlLoop p (p.ImageHeight / p.Threads) sels ⟨inputGrid p ioInput, 0, false⟩ with
  | none =>
    unfold distributor
    simp only [Option.bind_eq_bind]
    rw [loadWorld_eq]
    simp only [Option.some_bind, goDiv]
    rw [if_neg (by omega)]
    simp only [Option.some_bind]
    rw [h]
    rfl
  | some r => exact distributor_eq p ioInput sels hT r h

theorem controlLoop_running (p : Params) (hT : 1 ≤ p.Threads) (sels : List Select)
    (st : LoopState) (hw : WF p st.world) (r : Run)
    (h : controlLoop p (p.ImageHeight / p.Threads) sels st = some r) :
    WF p r.final.world ∧ (r.returned = false → r.final.turn < p.Turns) := by
  obtain ⟨r', hr', hP⟩ := controlLoop_induct p hT
    (fun _ _ r => WF p r.final.world ∧ (r.returned = false → r.final.turn < p.Turns))
    (fun _ hw ht => ⟨hw, fun _ => ht⟩)
    (fun _ _ hw _ => ⟨hw, fun h => by cases h⟩)
    (fun _ _ hw _ => ⟨hw, fun h => by cases h⟩)
    (fun _ _ _ _ _ h => h)
    (fun _ _ _ _ _ h => h)
    (fun _ _ _ _ _ _ _ _ _ h => h)
    (fun _ _ _ _ _ _ _ h => h)
    (fun _ _ _ _ _ _ _ h => h)
    sels st hw
  rw [h] at hr'
  cases hr'
  exact hP

theorem controlLoop_quit (p : Params) (s : Nat) (st : LoopState) (rest : List Select)
    (hw : WF p st.world) (ht : st.turn < p.Turns) :
    controlLoop p s (Select.key 'q' :: rest) st = some ⟨finalOuts p st, st, true⟩ := by
  rw [controlLoop_key p s 'q' rest st ht, if_neg (by decide), if_pos rfl, quit_eq p st hw]
  rfl

theorem distributor_quit (p : Params) (ioInput : Nat → Nat) (pre rest : List Select) (r : Run)
    (hT : 1 ≤ p.Threads) (h : distributor p ioInput pre = some r) (hret : r.returned = false) :
    distributor p ioInput (pre ++ Select.key 'q' :: rest)
      = some ⟨r.outs ++ finalOuts p r.final, r.final, true⟩ := by
  rw [distributor_map p ioInput pre hT] at h
  rw [Option.map_eq_some'] at h
  obtain ⟨r0, hr0, hr⟩ := h
  subst hr
  obtain ⟨hw, hlt⟩ := controlLoop_running p hT pre _ (WF_fullGrid p _) r0 hr0
  rw [distributor_map p ioInput _ hT, controlLoop_append p _ pre _ r0 hr0 hret,
    controlLoop_quit p _ r0.final rest hw (hlt hret)]
  simp [List.append_assoc]

theorem wrapIdx_zero (a n : Nat) (ha : a < n) : wrapIdx a 0 n = a := by
  unfold wrapIdx
  rw [Int.tmod_eq_emod (by omega) (by omega), Int.add_zero, Int.add_emod_self,
    Int.emod_eq_of_lt (by omega) (by omega)]
  simp

theorem sumAt_dead (p : Params) (h w x y : Nat) : sumAt p (makeGrid h w) x y = 0 := by
  unfold sumAt aliveAt
  simp only [cellAt_makeGrid]
  rfl

theorem centre_counted_when_narrow (p : Params) (x y : Nat) (hx : x < p.ImageWidth)
    (hy : y < p.ImageHeight) (hn : p.ImageWidth = 1 ∨ p.ImageHeight = 1) :
    ∃ w1 w2, WF p w1 ∧ WF p w2 ∧ differOnlyAt w1 w2 x y ∧
      neighbourSum p w1 x y ≠ neighbourSum p w2 x y := by
  have hw1 : WF p (fullGrid p.ImageHeight p.ImageWidth fun _ _ => 0) := WF_fullGrid p _
  have hw2 : WF p (fullGrid p.ImageHeight p.ImageWidth
      fun i j => if i = y ∧ j = x then 0xFF else 0) := WF_fullGrid p _
  have hc : cellAt (fullGrid p.ImageHeight p.ImageWidth
      fun i j => if i = y ∧ j = x then 0xFF else 0) y x = 0xFF := by
    rw [cellAt_fullGrid _ _ _ y x hy hx]
    simp
  refine ⟨_, _, hw1, hw2, ?_, ?_⟩
  · intro i j hne
    rw [fullGrid_zero, cellAt_makeGrid]
    unfold cellAt index
    by_cases hi : i < p.ImageHeight
    · rw [fullGrid_getElem? _ _ _ i hi]
      simp only
      by_cases hj : j < p.ImageWidth
      · simp [List.getElem?_map, List.getElem?_range hj, hne]
      · rw [List.getElem?_eq_none (by simpa using Nat.le_of_not_lt hj)]
        rfl
    · rw [List.getElem?_eq_none (by simpa [fullGrid] using Nat.le_of_not_lt hi)]
      rfl
  · rw [neighbourSum_eq p _ hw1 x y hx hy, neighbourSum_eq p _ hw2 x y hx hy, fullGrid_zero,
      sumAt_dead]
    intro h
    have h' := Option.some.inj h
    unfold sumAt at h'
    rcases hn with hn | hn
    · have hx0 : wrapIdx x 1 p.ImageWidth = x := by
        have := wrapIdx_lt x 1 p.ImageWidth (by omega) (by decide)
        omega
      have : aliveAt p (fullGrid p.ImageHeight p.ImageWidth
          fun i j => if i = y ∧ j = x then 0xFF else 0) x y 0 1 = 1 := by
        unfold aliveAt
        rw [hx0, wrapIdx_zero y _ hy, hc]
        rfl
      omega
    · have hy0 : wrapIdx y 1 p.ImageHeight = y := by
        have := wrapIdx_lt y 1 p.ImageHeight (by omega) (by decide)
        omega
      have : aliveAt p (fullGrid p.ImageHeight p.ImageWidth
          fun i j => if i = y ∧ j = x then 0xFF else 0) x y 1 0 = 1 := by
        unfold aliveAt
        rw [hy0, wrapIdx_zero x _ hx, hc]
        rfl
      omega

/-! ## Main results -/

/-- C1: on a `width x height` snapshot with `width, height >= 1`, for every
position `(x, y)` of a worker's row range `[startY, startY + height)` the call
returns, and the byte it writes for `(x, y)` (row `y - startY` of the returned
sub-grid) is Conway's rule on the toroidal neighbourhood, `conwayNext`: `0xFF`
exactly when the snapshot cell is `0xFF` and the count `n` is 2 or 3, or the
cell is not `0xFF` and `n` is 3, and `0x00` otherwise, where `n` counts the
eight offsets with `0xFF` at `((x+dx) mod width, (y+dy) mod height)`. -/

theorem C1_worker_writes_conway_rule (p : Params) (world : Grid) (startY height turn x y : Nat)
    (hW : 1 ≤ p.ImageWidth) (hH : 1 ≤ p.ImageHeight) (hw : WF p world)
    (hin : startY + height ≤ p.ImageHeight)
    (hy : startY ≤ y ∧ y < startY + height) (hx : x < p.ImageWidth) :
    ∃ nextSlice events, worker p world startY height turn = some (nextSlice, events) ∧
      index nextSlice (y - startY) x
        = some (conwayNext p.ImageWidth p.ImageHeight world x y) := by
  refine ⟨_, _, worker_eq p world hw startY height turn hin, ?_⟩
  rw [index_nextRows p world startY height (y - startY) x (by omega) hx,
    nextAt_eq_conwayNext p world x _ hW hH]
  congr 2
  omega

theorem C1_worker_writes_conway_rule_witness :
    ∃ nextSlice events,
      worker ⟨10, 2, 3, 3⟩ [[0, 255, 0], [0, 255, 0], [0, 255, 0]] 1 2 0
        = some (nextSlice, events) ∧
      index nextSlice (1 - 1) 0
        = some (conwayNext 3 3 [[0, 255, 0], [0, 255, 0], [0, 255, 0]] 0 1) :=
  C1_worker_writes_conway_rule ⟨10, 2, 3, 3⟩ [[0, 255, 0], [0, 255, 0], [0, 255, 0]] 1 2 0 0 1
    (by decide) (by decide) ⟨rfl, by decide⟩ (by decide) ⟨by decide, by decide⟩ (by decide)

/-- C4: for a snapshot, a row range `[startY, startY + height)` inside the grid
and a turn number `t`, `worker` returns, and it emits no event when no cell of
the range changes and otherwise exactly one `CellsFlipped` event with
`CompletedTurns = t + 1` whose `Cells` list is `flippedCells`: it holds exactly
the positions `(x, startY + y)`, `y < height`, `x < width` (global `Y`), at
which the computed next state differs from the snapshot, each once and in
row-major order. -/

theorem C4_worker_flip_event (p : Params) (world : Grid) (startY height t : Nat)
    (hw : WF p world) (hin : startY + height ≤ p.ImageHeight) :
    ∃ nextSlice events, worker p world startY height t = some (nextSlice, events) ∧
      events = (if flippedCells p world startY height nextSlice = [] then []
        else [Event.CellsFlipped (t + 1) (flippedCells p world startY height nextSlice)]) ∧
      (∀ c, c ∈ flippedCells p world startY height nextSlice ↔
        ∃ y x, y < height ∧ x < p.ImageWidth ∧ c = ⟨x, startY + y⟩ ∧
          cellAt nextSlice y x ≠ cellAt world (startY + y) x) ∧
      (flippedCells p world startY height nextSlice).Pairwise rowMajorLt ∧
      (flippedCells p world startY height nextSlice).Nodup := by
  refine ⟨_, _, worker_eq p world hw startY height t hin, ?_,
    flippedCells_mem p world startY height _, flippedCells_rowMajor p world startY height _, ?_⟩
  · rw [← flipsIn_eq_flippedCells]
    cases h : flipsIn p world startY height with
    | nil => simp
    | cons a l => simp
  · refine (flippedCells_rowMajor p world startY height _).imp ?_
    intro a b hab hEq
    subst hEq
    rcases hab with h | ⟨_, h⟩ <;> omega

theorem C4_worker_flip_event_witness :
    ∃ nextSlice events,
      worker ⟨10, 2, 3, 3⟩ [[0, 255, 0], [0, 255, 0], [0, 255, 0]] 1 2 4
        = some (nextSlice, events) ∧
      events = (if flippedCells ⟨10, 2, 3, 3⟩ [[0, 255, 0], [0, 255, 0], [0, 255, 0]] 1 2
          nextSlice = [] then []
        else [Event.CellsFlipped (4 + 1)
          (flippedCells ⟨10, 2, 3, 3⟩ [[0, 255, 0], [0, 255, 0], [0, 255, 0]] 1 2 nextSlice)]) ∧
      (∀ c, c ∈ flippedCells ⟨10, 2, 3, 3⟩ [[0, 255, 0], [0, 255, 0], [0, 255, 0]] 1 2 nextSlice ↔
        ∃ y x, y < 2 ∧ x < 3 ∧ c = ⟨x, 1 + y⟩ ∧
          cellAt nextSlice y x ≠ cellAt [[0, 255, 0], [0, 255, 0], [0, 255, 0]] (1 + y) x) ∧
      (flippedCells ⟨10, 2, 3, 3⟩ [[0, 255, 0], [0, 255, 0], [0, 255, 0]] 1 2
        nextSlice).Pairwise rowMajorLt ∧
      (flippedCells ⟨10, 2, 3, 3⟩ [[0, 255, 0], [0, 255, 0], [0, 255, 0]] 1 2
        nextSlice).Nodup :=
  C4_worker_flip_event ⟨10, 2, 3, 3⟩ [[0, 255, 0], [0, 255, 0], [0, 255, 0]] 1 2 4
    ⟨rfl, by decide⟩ (by decide)

/-- C10, as amended: on a grid at least 2 cells wide and 2 cells high
(including width 2 and height 2, where the left and the right neighbour
coincide), for every position `(x, y)` and every two snapshots that differ only
in the value at `(x, y)`, `worker` computes the same alive-neighbour count for
`(x, y)` on both. -/

theorem C10_count_excludes_centre (p : Params) (w1 w2 : Grid) (x y : Nat)
    (hW : 2 ≤ p.ImageWidth) (hH : 2 ≤ p.ImageHeight) (h1 : WF p w1) (h2 : WF p w2)
    (hx : x < p.ImageWidth) (hy : y < p.ImageHeight) (hd : differOnlyAt w1 w2 x y) :
    ∃ n, neighbourSum p w1 x y = some n ∧ neighbourSum p w2 x y = some n := by
  refine ⟨sumAt p w1 x y, neighbourSum_eq p w1 h1 x y hx hy, ?_⟩
  rw [neighbourSum_eq p w2 h2 x y hx hy]
  congr 1
  have h := fun dy dx => aliveAt_congr p w1 w2 x y dy dx hW hH hx hy hd
  unfold sumAt
  rw [h (-1) (-1) (by decide), h (-1) 0 (by decide), h (-1) 1 (by decide),
    h 0 (-1) (by decide), h 0 1 (by decide), h 1 (-1) (by decide), h 1 0 (by decide),
    h 1 1 (by decide)]

theorem C10_count_excludes_centre_witness :
    ∃ n, neighbourSum ⟨1, 1, 2, 2⟩ [[0, 255], [255, 0]] 0 0 = some n ∧
      neighbourSum ⟨1, 1, 2, 2⟩ [[255, 255], [255, 0]] 0 0 = some n :=
  C10_count_excludes_centre ⟨1, 1, 2, 2⟩ [[0, 255], [255, 0]] [[255, 255], [255, 0]] 0 0
    (by decide) (by decide) ⟨rfl, by decide⟩ ⟨rfl, by decide⟩ (by decide) (by decide)
    (by
      intro i j hne
      match i, j with
      | 0, 0 => exact absurd ⟨rfl, rfl⟩ hne
      | 0, 1 => rfl
      | 0, j + 2 => rfl
      | 1, 0 => rfl
      | 1, 1 => rfl
      | 1, j + 2 => rfl
      | i + 2, _ => rfl)

/-- C10 as stated fails on a grid one cell wide and one cell high: the two 1x1
snapshots `[[0]]` and `[[255]]` differ only at `(0, 0)`, every one of the eight
offsets wraps back onto `(0, 0)`, and `worker` counts 0 alive neighbours on the
first and 8 on the second. -/

theorem C10_counterexample :
    ¬ (∀ (p : Params) (w1 w2 : Grid) (x y : Nat), 1 ≤ p.ImageWidth → 1 ≤ p.ImageHeight →
        WF p w1 → WF p w2 → x < p.ImageWidth → y < p.ImageHeight → differOnlyAt w1 w2 x y →
        neighbourSum p w1 x y = neighbourSum p w2 x y) := by
  intro h
  have h' := h ⟨1, 1, 1, 1⟩ [[0]] [[255]] 0 0 (by decide) (by decide) ⟨rfl, by decide⟩
    ⟨rfl, by decide⟩ (by decide) (by decide) (differOnlyAt_single 0 255)
  have e1 : neighbourSum ⟨1, 1, 1, 1⟩ [[0]] 0 0 = some 0 := by decide
  have e2 : neighbourSum ⟨1, 1, 1, 1⟩ [[255]] 0 0 = some 8 := by decide
  rw [e1, e2] at h'
  exact absurd h' (by decide)

/-- C3: for every grid height (in particular every height >= 1) and worker
count `W >= 1` the row ranges of lines 223-228, `[w*s, w*s + h_w)` with `s = height / W`, `h_w = s` for
`w < W-1` and `h_w = s + height % W` for `w = W-1`, partition `[0, height)`:
the first starts at 0, consecutive ranges are adjacent, the last ends at
`height`, the heights sum to `height`, no two ranges share a row, every row
below `height` lies in exactly one range; and when `W > height` every range
but the last is empty and the last is the whole grid. -/

theorem C3_ranges_partition_rows (p : Params) (hT : 1 ≤ p.Threads) :
    (∀ w, workerRange p (p.ImageHeight / p.Threads) w
      = (w * (p.ImageHeight / p.Threads),
          if w = p.Threads - 1 then p.ImageHeight / p.Threads + p.ImageHeight % p.Threads
          else p.ImageHeight / p.Threads)) ∧
    (workerRange p (p.ImageHeight / p.Threads) 0).1 = 0 ∧
    (∀ w, w + 1 < p.Threads →
      (workerRange p (p.ImageHeight / p.Threads) w).1 +
          (workerRange p (p.ImageHeight / p.Threads) w).2
        = (workerRange p (p.ImageHeight / p.Threads) (w + 1)).1) ∧
    ((workerRange p (p.ImageHeight / p.Threads) (p.Threads - 1)).1 +
        (workerRange p (p.ImageHeight / p.Threads) (p.Threads - 1)).2 = p.ImageHeight) ∧
    ((List.range p.Threads).map fun w =>
        (workerRange p (p.ImageHeight / p.Threads) w).2).sum = p.ImageHeight ∧
    (∀ w1 w2 y, w1 < p.Threads → w2 < p.Threads →
      inRange (workerRange p (p.ImageHeight / p.Threads) w1) y →
      inRange (workerRange p (p.ImageHeight / p.Threads) w2) y → w1 = w2) ∧
    (∀ y, y < p.ImageHeight →
      ∃! w, w < p.Threads ∧ inRange (workerRange p (p.ImageHeight / p.Threads) w) y) ∧
    (p.ImageHeight < p.Threads →
      (∀ w, w + 1 < p.Threads → (workerRange p (p.ImageHeight / p.Threads) w).2 = 0) ∧
      workerRange p (p.ImageHeight / p.Threads) (p.Threads - 1) = (0, p.ImageHeight)) := by
  have hcT : covered p (p.ImageHeight / p.Threads) p.Threads = p.ImageHeight := by
    unfold covered; rw [if_pos rfl]
  refine ⟨fun w => rfl, by simp [workerRange_fst], ?_, ?_, ?_, ?_, ?_, ?_⟩
  · intro w hw
    rw [workerRange_end p w (by omega), workerRange_fst, covered_start p _ (w + 1) hw]
  · rw [workerRange_end p (p.Threads - 1) (by omega)]
    have : p.Threads - 1 + 1 = p.Threads := by omega
    rw [this, hcT]
  · rw [heights_sum p hT p.Threads (Nat.le_refl _), hcT]
  · intro w1 w2 y h1 h2 hi1 hi2
    exact range_unique p w1 w2 y h1 h2 hi1 hi2
  · intro y hy
    obtain ⟨w, hw, hin⟩ := range_exists p hT p.Threads (Nat.le_refl _) y (by rw [hcT]; exact hy)
    exact ⟨w, ⟨hw, hin⟩, fun w' ⟨hw', hin'⟩ => range_unique p w' w y hw' hw hin' hin⟩
  · intro hlt
    have hs : p.ImageHeight / p.Threads = 0 := Nat.div_eq_of_lt hlt
    have hm : p.ImageHeight % p.Threads = p.ImageHeight := Nat.mod_eq_of_lt hlt
    constructor
    · intro w hw
      rw [workerRange_snd, if_neg (by omega), hs]
    · rw [Prod.ext_iff, workerRange_fst, workerRange_snd, if_pos rfl, hs, hm]
      simp

theorem C3_ranges_partition_rows_witness :
    (∀ w, workerRange ⟨1, 3, 4, 7⟩ (7 / 3) w
      = (w * (7 / 3), if w = 3 - 1 then 7 / 3 + 7 % 3 else 7 / 3)) ∧
    (workerRange ⟨1, 3, 4, 7⟩ (7 / 3) 0).1 = 0 ∧
    (∀ w, w + 1 < 3 →
      (workerRange ⟨1, 3, 4, 7⟩ (7 / 3) w).1 + (workerRange ⟨1, 3, 4, 7⟩ (7 / 3) w).2
        = (workerRange ⟨1, 3, 4, 7⟩ (7 / 3) (w + 1)).1) ∧
    ((workerRange ⟨1, 3, 4, 7⟩ (7 / 3) (3 - 1)).1 +
        (workerRange ⟨1, 3, 4, 7⟩ (7 / 3) (3 - 1)).2 = 7) ∧
    ((List.range 3).map fun w => (workerRange ⟨1, 3, 4, 7⟩ (7 / 3) w).2).sum = 7 ∧
    (∀ w1 w2 y, w1 < 3 → w2 < 3 →
      inRange (workerRange ⟨1, 3, 4, 7⟩ (7 / 3) w1) y →
      inRange (workerRange ⟨1, 3, 4, 7⟩ (7 / 3) w2) y → w1 = w2) ∧
    (∀ y, y < 7 → ∃! w, w < 3 ∧ inRange (workerRange ⟨1, 3, 4, 7⟩ (7 / 3) w) y) ∧
    (7 < 3 →
      (∀ w, w + 1 < 3 → (workerRange ⟨1, 3, 4, 7⟩ (7 / 3) w).2 = 0) ∧
      workerRange ⟨1, 3, 4, 7⟩ (7 / 3) (3 - 1) = (0, 7)) :=
  C3_ranges_partition_rows ⟨1, 3, 4, 7⟩ (by decide)

/-- C2: partition equivalence. For every grid of `height` rows of `width` cells
and every worker count `W >= 1` (in particular `1 <= W <= height`), the single
`worker` call over the whole grid (`startY = 0`, range height = `height`)
returns, one turn of the distributor with `W` row ranges commits, and the grid
the turn builds by copying each returned sub-grid into `nextWorld` at its
`startY` is equal to the sub-grid of the single call. -/
theorem C2_partition_equivalence (p : Params) (world : Grid) (turn : Nat) (paused : Bool)
    (order : List Nat) (hT : 1 ≤ p.Threads) (hw : WF p world) :
    ∃ whole events st' outs,
      worker p world 0 p.ImageHeight turn = some (whole, events) ∧
      turnStep p (p.ImageHeight / p.Threads) ⟨world, turn, paused⟩ order = some (st', outs) ∧
      st'.world = whole :=
  ⟨_, _, _, _, worker_eq p world hw 0 p.ImageHeight turn (by omega),
    turnStep_eq p ⟨world, turn, paused⟩ hw hT order, rfl⟩

theorem C2_partition_equivalence_witness :
    ∃ whole events st' outs,
      worker ⟨9, 2, 3, 5⟩
          [[0, 255, 0], [0, 255, 0], [0, 255, 0], [0, 0, 0], [255, 0, 0]] 0 5 0
        = some (whole, events) ∧
      turnStep ⟨9, 2, 3, 5⟩ (5 / 2)
          ⟨[[0, 255, 0], [0, 255, 0], [0, 255, 0], [0, 0, 0], [255, 0, 0]], 0, false⟩ [1, 0]
        = some (st', outs) ∧
      st'.world = whole :=
  C2_partition_equivalence ⟨9, 2, 3, 5⟩
    [[0, 255, 0], [0, 255, 0], [0, 255, 0], [0, 0, 0], [255, 0, 0]] 0 false [1, 0]
    (by decide) ⟨rfl, by decide⟩

/-- C6 as stated fails at the observation points before the first committed
turn: the grid `[[0, 7, 0], [255, 255, 255]]` has exactly 2 rows of 3 cells, and
a run of the control loop from it that has not yet committed a turn still holds
the byte 7, which is neither `0x00` nor `0xFF` (line 104 stores whatever byte
is received); the snapshot command serviced at turn 0 streams that byte on
`c.ioOutput` (line 79). -/
theorem C6_counterexample :
    (¬ ∀ (p : Params) (st : LoopState), 1 ≤ p.ImageWidth → 1 ≤ p.ImageHeight →
        1 ≤ p.Threads → WF p st.world →
        (∀ order, ∃ st' outs,
          turnStep p (p.ImageHeight / p.Threads) st order = some (st', outs) ∧
          WF p st'.world ∧ Sentinel st'.world) ∧
        (∀ sels, ∃ r, controlLoop p (p.ImageHeight / p.Threads) sels st = some r ∧
          WF p r.final.world ∧ Sentinel r.final.world)) ∧
    (∃ outs, controlLoop ⟨9, 2, 3, 2⟩ (2 / 2) [Select.key 's']
        ⟨[[0, 7, 0], [255, 255, 255]], 0, false⟩
          = some ⟨outs, ⟨[[0, 7, 0], [255, 255, 255]], 0, false⟩, false⟩ ∧
      Out.output 7 ∈ outs) := by
  constructor
  · intro h
    obtain ⟨r, hr, _, hs⟩ := (h ⟨9, 2, 3, 2⟩ ⟨[[0, 7, 0], [255, 255, 255]], 0, false⟩
      (by decide) (by decide) (by decide) ⟨rfl, by decide⟩).2 []
    rw [controlLoop_nil _ _ _ (by decide)] at hr
    cases hr
    have h7 := hs [0, 7, 0] (by decide) 7 (by decide)
    revert h7
    decide
  · refine ⟨saveOuts ⟨9, 2, 3, 2⟩ [[0, 7, 0], [255, 255, 255]] 0 ++ [], ?_, ?_⟩
    · rw [controlLoop_key _ _ _ _ _ (by decide), if_pos rfl,
        snapshot_eq _ _ ⟨rfl, by decide⟩, controlLoop_nil _ _ _ (by decide)]
      rfl
    · have hc : Out.output 7 ∈ cellsRowMajor ⟨9, 2, 3, 2⟩ [[0, 7, 0], [255, 255, 255]] := by
        decide
      unfold saveOuts
      simp only [List.mem_append]
      exact Or.inl (Or.inl (Or.inr hc))

/-- C6, as amended: grid well-formedness is preserved by every committed turn.
For every worker count `W >= 1` and every grid with exactly `height` rows of
`width` cells, one turn commits, and the merged grid again has exactly `height`
rows of exactly `width` cells, each `0x00` or `0xFF`. Hence in every run of the
control loop from such a grid (any sequence of `select` outcomes, so at every
observation point) the loop does not fail, the grid keeps that shape, and all
its cells are sentinel values as soon as one turn has been committed, and from
the start when the initial grid holds only sentinel values. -/
theorem C6_turn_preserves_well_formedness (p : Params) (st : LoopState)
    (hT : 1 ≤ p.Threads) (hw : WF p st.world) :
    (∀ order, ∃ st' outs,
      turnStep p (p.ImageHeight / p.Threads) st order = some (st', outs) ∧
      WF p st'.world ∧ Sentinel st'.world) ∧
    (∀ sels, ∃ r, controlLoop p (p.ImageHeight / p.Threads) sels st = some r ∧
      WF p r.final.world ∧
      ((Sentinel st.world ∨ st.turn < r.final.turn) → Sentinel r.final.world)) := by
  constructor
  · intro order
    exact ⟨_, _, turnStep_eq p st hw hT order, WF_nextRows p st.world,
      Sentinel_nextRows p st.world 0 _⟩
  · intro sels
    obtain ⟨r, hr, h1, _, h3⟩ := controlLoop_induct p hT
      (fun _ st r => WF p r.final.world ∧ st.turn ≤ r.final.turn ∧
        ((Sentinel st.world ∨ st.turn < r.final.turn) → Sentinel r.final.world))
      (fun st hw _ => ⟨hw, Nat.le_refl _, fun h => h.elim id (fun h => absurd h (Nat.lt_irrefl _))⟩)
      (fun _ st hw _ => ⟨hw, Nat.le_refl _, fun h => h.elim id (fun h => absurd h (Nat.lt_irrefl _))⟩)
      (fun _ st hw _ => ⟨hw, Nat.le_refl _, fun h => h.elim id (fun h => absurd h (Nat.lt_irrefl _))⟩)
      (fun _ _ _ _ _ h => h)
      (fun _ st r _ _ h => by
        beta_reduce at h ⊢
        rw [pause_world, pause_turn] at h
        exact h)
      (fun _ _ _ _ _ _ _ _ _ h => h)
      (fun _ _ st r _ _ _ h => by
        obtain ⟨h1, h2, h3⟩ := h
        have h2' : st.turn + 1 ≤ r.final.turn := h2
        refine ⟨h1, ?_, fun _ => h3 (Or.inl (Sentinel_nextRows p st.world 0 _))⟩
        show st.turn ≤ r.final.turn
        omega)
      (fun _ _ _ _ _ _ _ h => h)
      sels st hw
    exact ⟨r, hr, h1, h3⟩

theorem C6_turn_preserves_well_formedness_witness :
    (∀ order, ∃ st' outs,
      turnStep ⟨9, 2, 3, 2⟩ (2 / 2) ⟨[[0, 7, 0], [255, 255, 255]], 0, false⟩ order
        = some (st', outs) ∧
      WF ⟨9, 2, 3, 2⟩ st'.world ∧ Sentinel st'.world) ∧
    (∀ sels, ∃ r, controlLoop ⟨9, 2, 3, 2⟩ (2 / 2) sels
        ⟨[[0, 7, 0], [255, 255, 255]], 0, false⟩ = some r ∧
      WF ⟨9, 2, 3, 2⟩ r.final.world ∧
      ((Sentinel (LoopState.mk [[0, 7, 0], [255, 255, 255]] 0 false).world ∨
        (LoopState.mk [[0, 7, 0], [255, 255, 255]] 0 false).turn < r.final.turn) →
        Sentinel r.final.world)) :=
  C6_turn_preserves_well_formedness ⟨9, 2, 3, 2⟩ ⟨[[0, 7, 0], [255, 255, 255]], 0, false⟩
    (by decide) ⟨rfl, by decide⟩

/-- C5: turn monotonicity. In every run of `distributor` with worker count
`W >= 1` (any byte stream, any sequence of pause, snapshot, quit, other-key and
no-command iterations, complete or still going) the call does not fail, the
`CompletedTurns` values of the successive `TurnComplete` events are
`1, 2, ..., k` where `k` is the final value of the turn counter, so the counter
starts at 0, goes up by 1 with each committed turn and by nothing else, and it
never exceeds `Turns`. -/
theorem C5_turn_monotonicity (p : Params) (ioInput : Nat → Nat) (sels : List Select)
    (hT : 1 ≤ p.Threads) :
    ∃ r, distributor p ioInput sels = some r ∧
      turnCompletes r.outs = (List.range r.final.turn).map (fun i => i + 1) ∧
      r.final.turn = (turnCompletes r.outs).length ∧
      r.final.turn ≤ p.Turns := by
  obtain ⟨r, hr, h1, h2, h3⟩ := controlLoop_induct p hT
    (fun _ st r => st.turn ≤ r.final.turn ∧ (st.turn ≤ p.Turns → r.final.turn ≤ p.Turns) ∧
      turnCompletes r.outs = (List.range (r.final.turn - st.turn)).map (fun i => st.turn + 1 + i))
    (fun st _ _ => ⟨Nat.le_refl _, id, by simp [turnCompletes]⟩)
    (fun _ st _ _ => ⟨Nat.le_refl _, id, by simp [turnCompletes_finalOuts]⟩)
    (fun _ st _ _ => ⟨Nat.le_refl _, id, by simp [turnCompletes_finalOuts]⟩)
    (fun _ st r _ _ h => by
      refine ⟨h.1, h.2.1, ?_⟩
      show turnCompletes (saveOuts p st.world st.turn ++ r.outs) = _
      rw [turnCompletes_append, turnCompletes_saveOuts, List.nil_append]
      exact h.2.2)
    (fun _ st r _ _ h => by
      beta_reduce at h ⊢
      rw [pause_turn] at h
      refine ⟨h.1, h.2.1, ?_⟩
      show turnCompletes ((pause st).2 ++ r.outs) = _
      rw [turnCompletes_append, turnCompletes_pause, List.nil_append]
      exact h.2.2)
    (fun _ _ _ _ _ _ _ _ _ h => h)
    (fun order _ st r _ ht _ h => by
      obtain ⟨h1, h2, h3⟩ := h
      have h1' : st.turn + 1 ≤ r.final.turn := h1
      have h2' : st.turn + 1 ≤ p.Turns → r.final.turn ≤ p.Turns := h2
      have h3' : turnCompletes r.outs
          = (List.range (r.final.turn - (st.turn + 1))).map (fun i => st.turn + 1 + 1 + i) := h3
      refine ⟨?_, fun _ => h2' (by omega), ?_⟩
      · show st.turn ≤ r.final.turn
        omega
      show turnCompletes (turnOuts p st order ++ r.outs) = _
      rw [turnCompletes_append, turnCompletes_turnOuts, h3']
      have : r.final.turn - st.turn = (r.final.turn - (st.turn + 1)) + 1 := by omega
      rw [this, range_map_shift]
      rfl)
    (fun _ _ _ _ _ _ _ h => h)
    sels ⟨inputGrid p ioInput, 0, false⟩ (WF_fullGrid p _)
  have h2' : r.final.turn ≤ p.Turns := h2 (Nat.zero_le _)
  have h3' : turnCompletes r.outs = (List.range r.final.turn).map (fun i => i + 1) := by
    rw [h3]
    apply List.map_congr_left
    intro i _
    show 0 + 1 + i = i + 1
    omega
  refine ⟨_, distributor_eq p ioInput sels hT r hr, ?_, ?_, h2'⟩
  · show turnCompletes (startOuts p ioInput ++ r.outs) = _
    rw [turnCompletes_append, turnCompletes_startOuts, List.nil_append]
    exact h3'
  · show r.final.turn = (turnCompletes (startOuts p ioInput ++ r.outs)).length
    rw [turnCompletes_append, turnCompletes_startOuts, List.nil_append, h3']
    simp

theorem C5_turn_monotonicity_witness :
    ∃ r, distributor ⟨3, 2, 2, 2⟩ (fun k => if k = 1 then 255 else 0)
        [Select.default [0, 1], Select.key 'p', Select.default [], Select.key 'p',
          Select.default [1, 0], Select.key 'q'] = some r ∧
      turnCompletes r.outs = (List.range r.final.turn).map (fun i => i + 1) ∧
      r.final.turn = (turnCompletes r.outs).length ∧
      r.final.turn ≤ 3 :=
  C5_turn_monotonicity ⟨3, 2, 2, 2⟩ (fun k => if k = 1 then 255 else 0)
    [Select.default [0, 1], Select.key 'p', Select.default [], Select.key 'p',
      Select.default [1, 0], Select.key 'q'] (by decide)

/-- C7: the quit sequence. When the control loop services `q` at turn `t` below
the turn limit, paused or not, whatever outcomes would follow, it stops the
ticker and then performs, in this order and nothing else (`finalOuts`): one
`FinalTurnComplete` event with `CompletedTurns = t` and the alive list of the
current grid; the snapshot request (`ioOutput`, the file name
`<width>x<height>x<t>`, the `width * height` cells of the current grid in
row-major order, `ioCheckIdle`, the idle acknowledgement) with its
`ImageOutputComplete`; one `StateChange (t, Quitting)`; closure of the event
sink. The function returns with the turn counter and the grid unchanged, and no
`TurnComplete` event is among these actions. In a run of `distributor`: when
the run so far has not returned, servicing `q` next appends exactly this
sequence to the trace and returns with the loop variables unchanged. -/
theorem C7_quit_sequence (p : Params) (sliceHeight : Nat) (st : LoopState) (rest : List Select)
    (hw : WF p st.world) (ht : st.turn < p.Turns) :
    controlLoop p sliceHeight (Select.key 'q' :: rest) st = some ⟨finalOuts p st, st, true⟩ ∧
    finalOuts p st =
      [Out.tickerStop, Out.done,
          Out.event (Event.FinalTurnComplete st.turn (aliveList p st.world)),
          Out.command IoCommand.ioOutput,
          Out.filename (toString p.ImageWidth ++ "x" ++ toString p.ImageHeight ++ "x" ++
            toString st.turn)] ++
        cellsRowMajor p st.world ++
        [Out.command IoCommand.ioCheckIdle, Out.idle,
          Out.event (Event.ImageOutputComplete st.turn
            (toString p.ImageWidth ++ "x" ++ toString p.ImageHeight ++ "x" ++
              toString st.turn)),
          Out.event (Event.StateChange st.turn State.Quitting), Out.closeEvents] ∧
    (cellsRowMajor p st.world).length = p.ImageWidth * p.ImageHeight ∧
    turnCompletes (finalOuts p st) = [] ∧
    (∀ (ioInput : Nat → Nat) (pre : List Select) (r : Run), 1 ≤ p.Threads →
      distributor p ioInput pre = some r → r.returned = false →
      r.final.turn < p.Turns ∧
      distributor p ioInput (pre ++ Select.key 'q' :: rest)
        = some ⟨r.outs ++ finalOuts p r.final, r.final, true⟩) := by
  refine ⟨controlLoop_quit p sliceHeight st rest hw ht, ?_, ?_, turnCompletes_finalOuts p st, ?_⟩
  · simp [finalOuts, saveOuts]
  · unfold cellsRowMajor
    clear hw
    induction p.ImageHeight with
    | zero => simp
    | succ n ih =>
      rw [List.range_succ, List.flatMap_append, List.length_append, ih]
      simp [Nat.mul_succ]
  · intro ioInput pre r hT h hret
    refine ⟨?_, distributor_quit p ioInput pre rest r hT h hret⟩
    rw [distributor_map p ioInput pre hT, Option.map_eq_some'] at h
    obtain ⟨r0, hr0, hr⟩ := h
    subst hr
    exact (controlLoop_running p hT pre _ (WF_fullGrid p _) r0 hr0).2 hret

theorem C7_quit_sequence_witness :
    controlLoop ⟨100, 2, 2, 2⟩ 1 (Select.key 'q' :: [Select.default [0, 1]])
        ⟨[[0, 255], [255, 0]], 5, true⟩
      = some ⟨finalOuts ⟨100, 2, 2, 2⟩ ⟨[[0, 255], [255, 0]], 5, true⟩,
          ⟨[[0, 255], [255, 0]], 5, true⟩, true⟩ ∧
    finalOuts ⟨100, 2, 2, 2⟩ ⟨[[0, 255], [255, 0]], 5, true⟩ =
      [Out.tickerStop, Out.done,
          Out.event (Event.FinalTurnComplete 5 (aliveList ⟨100, 2, 2, 2⟩ [[0, 255], [255, 0]])),
          Out.command IoCommand.ioOutput,
          Out.filename (toString 2 ++ "x" ++ toString 2 ++ "x" ++ toString 5)] ++
        cellsRowMajor ⟨100, 2, 2, 2⟩ [[0, 255], [255, 0]] ++
        [Out.command IoCommand.ioCheckIdle, Out.idle,
          Out.event (Event.ImageOutputComplete 5
            (toString 2 ++ "x" ++ toString 2 ++ "x" ++ toString 5)),
          Out.event (Event.StateChange 5 State.Quitting), Out.closeEvents] ∧
    (cellsRowMajor ⟨100, 2, 2, 2⟩ [[0, 255], [255, 0]]).length = 2 * 2 ∧
    turnCompletes (finalOuts ⟨100, 2, 2, 2⟩ ⟨[[0, 255], [255, 0]], 5, true⟩) = [] ∧
    (∀ (ioInput : Nat → Nat) (pre : List Select) (r : Run), 1 ≤ 2 →
      distributor ⟨100, 2, 2, 2⟩ ioInput pre = some r → r.returned = false →
      r.final.turn < 100 ∧
      distributor ⟨100, 2, 2, 2⟩ ioInput (pre ++ Select.key 'q' :: [Select.default [0, 1]])
        = some ⟨r.outs ++ finalOuts ⟨100, 2, 2, 2⟩ r.final, r.final, true⟩) :=
  C7_quit_sequence ⟨100, 2, 2, 2⟩ 1 ⟨[[0, 255], [255, 0]], 5, true⟩ [Select.default [0, 1]]
    ⟨rfl, by decide⟩ (by decide)

/-- C9: the all-dead grid. For every width, height, worker count `W >= 1` and
turn limit `N`, when every cell received is `0x00`: every run (any sequence of
`select` outcomes) does not fail, emits no `CellFlipped` and no `CellsFlipped`
event, keeps the grid all dead, and every `FinalTurnComplete` it emits has an
empty alive list; a run that returns emits exactly one, tagged with the final
turn; and the run of `N` turns without commands returns after turn `N` with
the single `FinalTurnComplete (N, [])`. -/
theorem C9_all_dead_grid (p : Params) (ioInput : Nat → Nat) (hT : 1 ≤ p.Threads)
    (hdead : ∀ k, k < p.ImageHeight * p.ImageWidth → ioInput k = 0x00) :
    (∀ sels, ∃ r, distributor p ioInput sels = some r ∧
      (∀ o ∈ r.outs, isFlip o = false) ∧
      r.final.world = makeGrid p.ImageHeight p.ImageWidth ∧
      (∀ rep ∈ finalReports r.outs, rep.2.length = 0) ∧
      (r.returned = true → finalReports r.outs = [(r.final.turn, [])])) ∧
    (∀ orders : List (List Nat), orders.length = p.Turns →
      ∃ r, distributor p ioInput (orders.map Select.default) = some r ∧
        r.returned = true ∧ r.final.turn = p.Turns ∧
        finalReports r.outs = [(p.Turns, [])]) := by
  have hg := inputGrid_dead p ioInput hdead
  have hs : ∀ o ∈ startOuts p ioInput, isFlip o = false := by
    intro o ho
    unfold startOuts at ho
    rw [loadFlips_dead p ioInput hdead] at ho
    simp only [List.append_nil, List.mem_append, List.mem_cons, List.mem_singleton,
      List.not_mem_nil, or_false] at ho
    rcases ho with (rfl | rfl) | rfl <;> rfl
  have main : ∀ sels, ∃ r, distributor p ioInput sels = some r ∧
      (∀ o ∈ r.outs, isFlip o = false) ∧
      r.final.world = makeGrid p.ImageHeight p.ImageWidth ∧
      (∀ rep ∈ finalReports r.outs, rep.2.length = 0) ∧
      (r.returned = true → finalReports r.outs = [(r.final.turn, [])]) ∧
      ∃ r', controlLoop p (p.ImageHeight / p.Threads) sels ⟨inputGrid p ioInput, 0, false⟩
        = some r' ∧ r'.returned = r.returned ∧ r'.final = r.final := by
    intro sels
    obtain ⟨r, hr, h1, h2, h3, h4⟩ := controlLoop_dead p hT sels
      ⟨inputGrid p ioInput, 0, false⟩ hg
    refine ⟨_, distributor_eq p ioInput sels hT r hr, forall_mem_append _ _ _ hs h2, h1, ?_, ?_,
      r, hr, rfl, rfl⟩
    · show ∀ rep ∈ finalReports (startOuts p ioInput ++ r.outs), rep.2.length = 0
      rw [finalReports_append, finalReports_startOuts, List.nil_append]
      intro rep hrep
      rw [h3 rep hrep]
      rfl
    · intro hret
      show finalReports (startOuts p ioInput ++ r.outs) = _
      rw [finalReports_append, finalReports_startOuts, List.nil_append]
      exact h4 hret
  constructor
  · intro sels
    obtain ⟨r, hr, h1, h2, h3, h4, _⟩ := main sels
    exact ⟨r, hr, h1, h2, h3, h4⟩
  · intro orders hlen
    obtain ⟨r, hr, _, _, _, h4, r', hr', hret, hfin⟩ := main (orders.map Select.default)
    obtain ⟨r'', hr'', ht1, ht2⟩ := controlLoop_terminates p hT orders
      ⟨inputGrid p ioInput, 0, false⟩ (WF_fullGrid p _) rfl (Nat.zero_le _)
      (by show p.Turns ≤ 0 + orders.length; omega)
    rw [hr'] at hr''
    cases hr''
    have hret' : r.returned = true := by rw [← hret]; exact ht1
    have hturn : r.final.turn = p.Turns := by rw [← hfin]; exact ht2
    refine ⟨r, hr, hret', hturn, ?_⟩
    rw [h4 hret', hturn]

theorem C9_all_dead_grid_witness :
    (∀ sels, ∃ r, distributor ⟨3, 5, 2, 4⟩ (fun _ => 0) sels = some r ∧
      (∀ o ∈ r.outs, isFlip o = false) ∧
      r.final.world = makeGrid 4 2 ∧
      (∀ rep ∈ finalReports r.outs, rep.2.length = 0) ∧
      (r.returned = true → finalReports r.outs = [(r.final.turn, [])])) ∧
    (∀ orders : List (List Nat), orders.length = 3 →
      ∃ r, distributor ⟨3, 5, 2, 4⟩ (fun _ => 0) (orders.map Select.default) = some r ∧
        r.returned = true ∧ r.final.turn = 3 ∧
        finalReports r.outs = [(3, [])]) :=
  C9_all_dead_grid ⟨3, 5, 2, 4⟩ (fun _ => 0) (by decide) (fun _ _ => rfl)

end gol
